import Mathlib

/-!
# Verification of the `pycommon_database` Mongo ODM layer

Shallow embedding of `src/pycommon_database/database_mongo.py` and
`src/pycommon_database/versioning_mongo.py`.

Modelling conventions:
* Python dictionaries (documents, filters) are association lists
  (`Doc := List (String × Value)`) preserving insertion order; assignment
  replaces the first occurrence in place, otherwise appends (Python dicts
  keep insertion order and have no duplicate keys).
* The value universe covers the scalar field kinds the claims exercise:
  `str`, `int`, `datetime.datetime` and `bson.ObjectId`, plus Python `None`.
  The external datetime / ObjectId codecs (`dateutil.parser.parse`,
  `datetime.isoformat`, `str(ObjectId)`) are modelled as an injective,
  mutually inverse encode/decode pair over an abstract `Nat` domain.
* Fallible Python code (raised exceptions) is modelled with `Except`;
  the distinct exception classes `ValidationFailed` and
  `ModelCouldNotBeFound` (declared outside `src/`, in
  `pycommon_database.flask_restplus_errors`, but fully determined by their
  construction sites in `database_mongo.py`) are distinct constructors of
  `CrudErr` below.
* The document store is modelled as a list of documents in insertion order
  (`find`/`find_one`/`update_one` follow natural order, as in Mongo).
-/

/-- A JSON/BSON-ish value as it flows through the layer.  `null` is Python
`None`; `dt` is a `datetime.datetime` object; `oid` a `bson.ObjectId`. -/
inductive Value where
  | null
  | str (s : String)
  | int (n : Int)
  | dt (t : Nat)
  | oid (n : Nat)
deriving Repr, DecidableEq

/-- Python truthiness of a value (used by `Column.__init__`, which treats a
falsy `default_value`/`choices` argument exactly like an absent one). -/
def Value.truthy : Value → Bool
  | .null => false
  | .str s => !(s == "")
  | .int n => !(n == 0)
  | .dt _ => true
  | .oid _ => true

/-- A document (a Python dictionary), as an insertion-ordered association
list. -/
abbrev Doc := List (String × Value)

/-- Lookup: `d[k]` for the first entry with key `k`. -/
def dGet (d : Doc) (k : String) : Option Value :=
  (d.find? (fun p => p.1 == k)).map (·.2)

/-- `k in d` for a Python dictionary. -/
def dHasKey (d : Doc) (k : String) : Bool :=
  (d.find? (fun p => p.1 == k)).isSome

/-- Assignment `d[k] = v`: replaces the first entry in place, otherwise
appends (Python dicts keep the key's original position). -/
def dSet (d : Doc) (k : String) (v : Value) : Doc :=
  match d with
  | [] => [(k, v)]
  | p :: rest => if p.1 == k then (k, v) :: rest else p :: dSet rest k v

/-- `d.pop(k, None)`: removes the entry with key `k` if present. -/
def dPop (d : Doc) (k : String) : Doc :=
  d.filter (fun p => !(p.1 == k))

/-- Keys of the dictionary, in order. -/
def dKeys (d : Doc) : List String := d.map Prod.fst

/-- Python's `document.get(name)`: both an absent key and a stored `None`
read back as `None`. -/
def pyVal (d : Doc) (k : String) : Option Value :=
  match dGet d k with
  | none => none
  | some .null => none
  | some v => some v

/-- Python `==` on dictionaries: same keys with equal values, insertion
order ignored. -/
def dEqv (a b : Doc) : Bool :=
  (dKeys a).all (fun k => dGet a k == dGet b k) &&
    (dKeys b).all (fun k => dGet a k == dGet b k)

/-- Decimal parsing of a character sequence (the executable half of the
abstract codec below). -/
def parseDigitsAux : List Char → Nat → Option Nat
  | [], acc => some acc
  | c :: cs, acc =>
    if c.isDigit then parseDigitsAux cs (acc * 10 + (c.toNat - 48)) else none

/-- Model of `dateutil.parser.parse` over the abstract datetime domain:
parseable strings are exactly the non-empty digit strings, decoding to the
instant they denote. -/
def parseDatetime (s : String) : Option Nat :=
  match s.data with
  | [] => none
  | cs => parseDigitsAux cs 0

/-- Model of `datetime.datetime.isoformat`: the inverse encoding of
`parseDatetime`. -/
def isoformat (t : Nat) : String := toString t

/-- Model of the `bson.ObjectId` constructor applied to a string: `some`
exactly on well-formed identifier strings. -/
def parseObjectId (s : String) : Option Nat :=
  match s.data with
  | [] => none
  | cs => parseDigitsAux cs 0

/-- Model of `str(ObjectId)`. -/
def oidString (n : Nat) : String := toString n

/-- The declared Python value types the claims exercise
(`field_type` of a `Column`). -/
inductive FieldKind where
  | str
  | int
  | datetime
  | objectId
deriving Repr, DecidableEq

/-- Python `isinstance(value, field_type)` over the modelled universe. -/
def isInstanceOf (v : Value) (ft : FieldKind) : Bool :=
  match ft, v with
  | .str, .str _ => true
  | .int, .int _ => true
  | .datetime, .dt _ => true
  | .objectId, .oid _ => true
  | _, _ => false

/-- The state of a constructed field descriptor
(`database_mongo.Column` after `__init__` / `_update_name`).
`defaultValue` and `choices` hold the already-truthiness-filtered results of
`get_default_value({})` / `get_choices()` (the source wraps the constructor
arguments in closures; a falsy argument behaves like an absent one). -/
structure Column where
  name : String
  fieldType : FieldKind
  isPrimaryKey : Bool
  isNullable : Bool
  shouldAutoIncrement : Bool
  isRequired : Bool
  allowNoneAsFilter : Bool
  defaultValue : Option Value
  choices : Option (List Value)
deriving Repr, DecidableEq

/-- Constructor arguments of `Column.__init__` (the keyword arguments of the
source; `isNullable` defaults to `True` at Python call sites). -/
structure ColumnArgs where
  fieldType : FieldKind
  name : String
  choices : Option (List Value)
  defaultValue : Option Value
  allowNoneAsFilter : Bool
  isPrimaryKey : Bool
  shouldAutoIncrement : Bool
  isNullable : Bool
  isRequired : Bool
deriving Repr, DecidableEq

/-- `Column.__init__` together with `_update_name` (both run at
schema-definition time: `__init_subclass__` binds the attribute name via
`to_mongo_field` when the model class is created).  Raised exceptions are
`.error`.  A field named `_id` gets the `ObjectId` field type, as in
`_update_name`. -/
def columnInit (a : ColumnArgs) : Except String Column :=
  if a.name.contains '.' then
    .error (a.name ++ " is not a valid name. Dots are not allowed in Mongo field names.")
  else
    let fieldType := if a.name == "_id" then FieldKind.objectId else a.fieldType
    let choices : Option (List Value) :=
      match a.choices with
      | some l => if l.isEmpty then none else some l
      | none => none
    let defaultValue : Option Value :=
      match a.defaultValue with
      | some v => if v.truthy then some v else none
      | none => none
    if a.shouldAutoIncrement && !(fieldType == .int) then
      .error "Only int fields can be auto incremented."
    else if !a.isNullable && a.shouldAutoIncrement then
      .error "A field cannot be mandatory and auto incremented at the same time."
    else if !a.isNullable && defaultValue.isSome then
      .error "A field cannot be mandatory and having a default value at the same time."
    else
      let isNullable :=
        if !a.isNullable then false
        else !a.isPrimaryKey || defaultValue.isSome || a.shouldAutoIncrement
      .ok ⟨a.name, fieldType, a.isPrimaryKey, isNullable, a.shouldAutoIncrement,
           a.isRequired, a.allowNoneAsFilter, defaultValue, choices⟩

/-- `DictColumn.__init__`, reduced to the parts the claims exercise: the
mandatory-fields check, and the `index_fields`-defaults-to-`fields` rule.
The recursive sub-schema machinery is not needed by any claim. -/
def dictColumnInit (fields indexFields : List (String × Column)) :
    Except String (List (String × Column) × List (String × Column)) :=
  if fields.isEmpty then .error "fields is a mandatory parameter."
  else .ok (fields, if indexFields.isEmpty then fields else indexFields)

/-- Validation errors: field name to list of messages
(the dictionaries returned by the `validate_*` methods). -/
abbrev FieldErrors := List (String × List String)

/-- `Column._validate_value`.  For `ObjectId` fields the source converts the
`BSONError` of a malformed identifier string into an error message; other
value shapes fall through to the final `isinstance` check. -/
def colValidateValue (c : Column) (v : Value) : FieldErrors :=
  match c.fieldType with
  | .datetime =>
    match v with
    | .str s =>
      match parseDatetime s with
      | none => [(c.name, ["Not a valid datetime."])]
      | some _ => []
    | .dt _ => []
    | _ => [(c.name, ["Not a valid datetime."])]
  | .objectId =>
    match v with
    | .oid _ => []
    | .str s =>
      match parseObjectId s with
      | none => [(c.name, ["Invalid ObjectId."])]
      | some _ => []
    | _ => [(c.name, ["Not a valid ObjectId."])]
  | .str =>
    match v with
    | .str s =>
      match c.choices with
      | some cs => if cs.contains (Value.str s) then [] else
          [(c.name, ["Value \"" ++ s ++ "\" is not within the allowed choices."])]
      | none => []
    | _ => [(c.name, ["Not a valid str."])]
  | .int =>
    match v with
    | .int n =>
      match c.choices with
      | some cs => if cs.contains (Value.int n) then [] else
          [(c.name, ["Value \"" ++ toString n ++ "\" is not within the allowed choices."])]
      | none => []
    | _ => [(c.name, ["Not a valid int."])]

/-- `Column.validate_insert`. -/
def colValidateInsert (c : Column) (document : Doc) : FieldErrors :=
  match pyVal document c.name with
  | none => if !c.isNullable then [(c.name, ["Missing data for required field."])] else []
  | some v => colValidateValue c v

/-- `Column.validate_update` (same body as `validate_insert` in the source). -/
def colValidateUpdate (c : Column) (document : Doc) : FieldErrors :=
  match pyVal document c.name with
  | none => if !c.isNullable then [(c.name, ["Missing data for required field."])] else []
  | some v => colValidateValue c v

/-- `Column.validate_query`: a missing value is never an error. -/
def colValidateQuery (c : Column) (filters : Doc) : FieldErrors :=
  match pyVal filters c.name with
  | none => []
  | some v => colValidateValue c v

/-- `Column._deserialize_value`.  Called on validated values only; on an
unparsable string (where the source would let the parser exception
propagate, a path unreachable after validation) the value is returned
unchanged. -/
def deserializeValue (c : Column) (v : Value) : Value :=
  match c.fieldType with
  | .datetime =>
    match v with
    | .str s => match parseDatetime s with
      | some t => .dt t
      | none => v
    | _ => v
  | .objectId =>
    match v with
    | .oid _ => v
    | .str s => match parseObjectId s with
      | some n => .oid n
      | none => v
    | _ => v
  | _ => v

/-- `Column.deserialize_insert`: a `None` value is removed from the document
entirely (not stored as null). -/
def colDeserializeInsert (c : Column) (document : Doc) : Doc :=
  match pyVal document c.name with
  | none => dPop document c.name
  | some v => dSet document c.name (deserializeValue c v)

/-- `Column.deserialize_update` (same body as `deserialize_insert`). -/
def colDeserializeUpdate (c : Column) (document : Doc) : Doc :=
  match pyVal document c.name with
  | none => dPop document c.name
  | some v => dSet document c.name (deserializeValue c v)

/-- `Column.deserialize_query`: a `None` value is removed from the filters
unless `allow_none_as_filter` is set. -/
def colDeserializeQuery (c : Column) (filters : Doc) : Doc :=
  match pyVal filters c.name with
  | none => if c.allowNoneAsFilter then filters else dPop filters c.name
  | some v => dSet filters c.name (deserializeValue c v)

/-- `str(value)` for the serialisation of `ObjectId` fields. -/
def pyStr : Value → String
  | .null => "None"
  | .str s => s
  | .int n => toString n
  | .dt t => isoformat t
  | .oid n => oidString n

/-- `Column.serialize`.  An absent/`None` value is replaced by the default
value (or `None`); a `datetime` field calls `.isoformat()` on the stored
value, which raises `AttributeError` when the value is not a datetime
object (modelled as `.error`). -/
def colSerialize (c : Column) (document : Doc) : Except String Doc :=
  match pyVal document c.name with
  | none => .ok (dSet document c.name ((c.defaultValue).getD .null))
  | some v =>
    match c.fieldType with
    | .datetime =>
      match v with
      | .dt t => .ok (dSet document c.name (.str (isoformat t)))
      | _ => .error "AttributeError: object has no attribute isoformat"
    | .objectId => .ok (dSet document c.name (.str (pyStr v)))
    | _ => .ok document

/-! ## The CRUD model (schema + store state)

A schema is the `__fields__` list of a model class.  The claims exercised
here involve scalar columns only, for which the dot-notation routing of
`_handle_dot_notation` (which requires a `dict`-typed column to return a
known field) always returns `None`; the corresponding loops reduce to
dropping unknown fields. -/

/-- Counters collection: one monotone integer per
(counter category, counter name); `_increment` upserts lazily. -/
abbrev Counters := List ((String × String) × Nat)

/-- Current value of a counter (0 before the first increment). -/
def counterValue (cnts : Counters) (cat nm : String) : Nat :=
  ((cnts.find? (fun p => p.1 == (cat, nm))).map (·.2)).getD 0

/-- `CRUDModel._increment`: atomic find-and-modify with upsert, returning
the value after the increment. -/
def incrementCounter (cnts : Counters) (cat nm : String) : Nat × Counters :=
  match cnts with
  | [] => (1, [((cat, nm), 1)])
  | p :: rest =>
    if p.1 == (cat, nm) then (p.2 + 1, ((cat, nm), p.2 + 1) :: rest)
    else ((incrementCounter rest cat nm).1, p :: (incrementCounter rest cat nm).2)

/-- The store-side state of one model: the collection (documents in
insertion order), the counters collection, and the source of fresh `_id`
values handed out by the driver on insert. -/
structure MState where
  coll : List Doc
  counters : Counters
  nextId : Nat
deriving Repr, DecidableEq

/-- Mongo filter matching: a `None` filter value matches a missing field or
a stored null; any other value must compare equal. -/
def matchesDoc (flt : Doc) (d : Doc) : Bool :=
  flt.all fun p =>
    match p.2 with
    | .null =>
      match dGet d p.1 with
      | none => true
      | some .null => true
      | some _ => false
    | v => dGet d p.1 == some v

/-- The errors raised by the CRUD layer.  `validationFailed*` model the
`ValidationFailed` exception with its three payload shapes
(field errors, batch-indexed errors, free-text message);
`modelCouldNotBeFound` models `ModelCouldNotBeFound`; `pyError` models an
uncaught Python exception propagating out of the layer. -/
inductive CrudErr where
  | validationFailedFields (errors : FieldErrors)
  | validationFailedIndexed (errors : List (Nat × FieldErrors))
  | validationFailedMsg (msg : String)
  | modelCouldNotBeFound (keys : Doc)
  | pyError (msg : String)
deriving Repr, DecidableEq

/-- `CRUDModel.validate_insert`: an empty document is rejected outright;
otherwise every declared field is validated (unknown submitted fields are
ignored here; with no dict-typed columns the dot-notation conversion adds
nothing). -/
def crudValidateInsert (fields : List Column) (document : Doc) : FieldErrors :=
  if document.isEmpty then [("", ["No data provided."])]
  else fields.foldl (fun acc c => acc ++ colValidateInsert c document) []

/-- `CRUDModel.validate_update`: fields that are present in the document or
are primary keys are validated. -/
def crudValidateUpdate (fields : List Column) (document : Doc) : FieldErrors :=
  if document.isEmpty then [("", ["No data provided."])]
  else
    (fields.filter (fun c => dHasKey document c.name || c.isPrimaryKey)).foldl
      (fun acc c => acc ++ colValidateUpdate c document) []

/-- `CRUDModel.validate_query`: only fields present in the filters are
validated; absent fields never error. -/
def crudValidateQuery (fields : List Column) (filters : Doc) : FieldErrors :=
  (fields.filter (fun c => dHasKey filters c.name)).foldl
    (fun acc c => acc ++ colValidateQuery c filters) []

/-- `CRUDModel._remove_dot_notation`: unknown fields are dropped from the
document (with a logged warning); with no dict-typed columns the
dot-notation re-routing adds nothing. -/
def removeUnknownFields (fields : List Column) (document : Doc) : Doc :=
  document.filter (fun p => (fields.map Column.name).contains p.1)

/-- One step of `CRUDModel.deserialize_insert`: deserialize the field and,
for an auto-increment field, assign the incremented value of its counter
(counter name defaults to the field name, category to the collection
name). -/
def desStep (tbl : String) (acc : Doc × Counters) (c : Column) : Doc × Counters :=
  let d := colDeserializeInsert c acc.1
  if c.shouldAutoIncrement then
    (dSet d c.name (.int (Int.ofNat (incrementCounter acc.2 tbl c.name).1)),
      (incrementCounter acc.2 tbl c.name).2)
  else (d, acc.2)

/-- `CRUDModel.deserialize_insert`: drop unknown fields, then run `desStep`
over every declared field. -/
def crudDeserializeInsert (fields : List Column) (tbl : String) (document : Doc)
    (cnts : Counters) : Doc × Counters :=
  fields.foldl (desStep tbl) (removeUnknownFields fields document, cnts)

/-- `CRUDModel.deserialize_update`: unknown fields are dropped; fields
present in the document or primary keys are deserialized. -/
def crudDeserializeUpdate (fields : List Column) (document : Doc) : Doc :=
  let document := removeUnknownFields fields document
  (fields.filter (fun c => dHasKey document c.name || c.isPrimaryKey)).foldl
    (fun acc c => colDeserializeUpdate c acc) document

/-- `CRUDModel.deserialize_query`: unknown filter fields are dropped
(logged), then each present field is deserialized. -/
def crudDeserializeQuery (fields : List Column) (filters : Doc) : Doc :=
  let flt := filters.filter (fun p => (fields.map Column.name).contains p.1)
  (fields.filter (fun c => dHasKey flt c.name)).foldl
    (fun acc c => colDeserializeQuery c acc) flt

/-- The fold of the per-field `serialize` calls inside
`CRUDModel.serialize`. -/
def serializeFields (fields : List Column) (document : Doc) : Except String Doc :=
  match fields with
  | [] => .ok document
  | c :: rest =>
    match colSerialize c document with
    | .error e => .error e
    | .ok d' => serializeFields rest d'

/-- `CRUDModel.serialize`: an empty/missing document serialises to `{}`;
otherwise every field is serialised, then every key that is not a declared
field is deleted.  The source then runs `removed_fields.remove('_id')`
before logging, which raises `ValueError` when fields were removed but
`_id` was not among them. -/
def crudSerialize (fields : List Column) (document : Doc) : Except String Doc :=
  if document.isEmpty then .ok []
  else
    match serializeFields fields document with
    | .error e => .error e
    | .ok d' =>
      let known := fields.map Column.name
      let removed := (dKeys d').filter (fun k => !known.contains k)
      let d'' := d'.filter (fun p => known.contains p.1)
      if removed.isEmpty then .ok d''
      else if removed.contains "_id" then .ok d''
      else .error "ValueError: list.remove(x): x not in list"

/-- `collection.insert_one`: the driver assigns a fresh `_id` to the
document when absent (pymongo mutates the passed dictionary). -/
def insertOneDoc (st : MState) (document : Doc) : MState × Doc :=
  if dHasKey document "_id" then
    ({ st with coll := st.coll ++ [document] }, document)
  else
    let d := dSet document "_id" (.oid st.nextId)
    ({ st with coll := st.coll ++ [d], nextId := st.nextId + 1 }, d)

/-- `collection.insert_many` over already-deserialized documents. -/
def insertManyDocs (documents : List Doc) (st : MState) : List Doc × MState :=
  match documents with
  | [] => ([], st)
  | d :: ds =>
    ((insertOneDoc st d).2 :: (insertManyDocs ds (insertOneDoc st d).1).1,
      (insertManyDocs ds (insertOneDoc st d).1).2)

/-- `CRUDModel._to_primary_keys_model`: the sub-dictionary of the document
restricted to primary-key field names. -/
def pkFilter (fields : List Column) (document : Doc) : Doc :=
  document.filter (fun p => fields.any (fun c => c.isPrimaryKey && c.name == p.1))

/-- `prev` updated with `{'$set': document}`. -/
def applySet (prev document : Doc) : Doc :=
  document.foldl (fun acc kv => dSet acc kv.1 kv.2) prev

/-- Replace the first document matching `p` (what
`find_one_and_update` updates: the first match in natural order). -/
def replaceFirst (l : List Doc) (p : Doc → Bool) (r : Doc) : List Doc :=
  match l with
  | [] => []
  | d :: ds => if p d then r :: ds else d :: replaceFirst ds p r

/-- `CRUDModel.get`: validate then deserialize the filters; more than one
match is an ambiguity error; `find_one` of no match gives `None`, which
serialises to `{}`. -/
def crudGet (fields : List Column) (filters : Doc) (st : MState) :
    Except CrudErr Doc :=
  let errors := crudValidateQuery fields filters
  if !errors.isEmpty then .error (.validationFailedFields errors)
  else
    let flt := crudDeserializeQuery fields filters
    if 1 < (st.coll.filter (fun d => matchesDoc flt d)).length then
      .error (.validationFailedMsg "More than one result: Consider another filtering.")
    else
      match st.coll.find? (fun d => matchesDoc flt d) with
      | none => .ok []
      | some d => (crudSerialize fields d).mapError .pyError

/-- `CRUDModel.get_all`: `limit`/`offset` are stripped from the filters
before validation; all matches are serialised. -/
def crudGetAll (fields : List Column) (filters : Doc) (st : MState) :
    Except CrudErr (List Doc) :=
  let limit := match dGet filters "limit" with
    | some (.int n) => n.toNat
    | _ => 0
  let offset := match dGet filters "offset" with
    | some (.int n) => n.toNat
    | _ => 0
  let f0 := dPop (dPop filters "limit") "offset"
  let errors := crudValidateQuery fields f0
  if !errors.isEmpty then .error (.validationFailedFields errors)
  else
    let flt := crudDeserializeQuery fields f0
    let ms := (st.coll.filter (fun d => matchesDoc flt d)).drop offset
    let ms := if limit == 0 then ms else ms.take limit
    (ms.mapM (crudSerialize fields)).mapError .pyError

/-- `CRUDModel.add`. -/
def crudAdd (fields : List Column) (tbl : String) (document : Doc) (st : MState) :
    Except CrudErr Doc × MState :=
  let errors := crudValidateInsert fields document
  if !errors.isEmpty then (.error (.validationFailedFields errors), st)
  else
    let (d1, cnts') := crudDeserializeInsert fields tbl document st.counters
    let st1 := { st with counters := cnts' }
    let (st2, d2) := insertOneDoc st1 d1
    ((crudSerialize fields d2).mapError .pyError, st2)

/-- The loop of `CRUDModel.add_all`: validate each document; a failing
document is recorded under its batch index and skipped, a valid one is
deserialized in place (its auto-increment counters are bumped even when a
later document will fail). -/
def addAllLoop (fields : List Column) (tbl : String) :
    List Doc → Counters → List (Nat × FieldErrors) × (List Doc × Counters)
  | [], cnts => ([], ([], cnts))
  | d :: ds, cnts =>
    if (crudValidateInsert fields d).isEmpty then
      let (d', cnts') := crudDeserializeInsert fields tbl d cnts
      let (es, r) := addAllLoop fields tbl ds cnts'
      (es.map (fun p => (p.1 + 1, p.2)), (d' :: r.1, r.2))
    else
      let (es, r) := addAllLoop fields tbl ds cnts
      ((0, crudValidateInsert fields d) :: es.map (fun p => (p.1 + 1, p.2)),
        (d :: r.1, r.2))

/-- `CRUDModel.add_all`: an empty batch is rejected; if any document failed
validation a `ValidationFailed` keyed by batch position is raised before
any store insert; otherwise the whole batch is inserted and serialised. -/
def crudAddAll (fields : List Column) (tbl : String) (documents : List Doc)
    (st : MState) : Except CrudErr (List Doc) × MState :=
  if documents.isEmpty then (.error (.validationFailedMsg "No data provided."), st)
  else
    let (es, r) := addAllLoop fields tbl documents st.counters
    let st1 := { st with counters := r.2 }
    if es.isEmpty then
      let (ds', st2) := insertManyDocs r.1 st1
      ((ds'.mapM (crudSerialize fields)).mapError .pyError, st2)
    else (.error (.validationFailedIndexed es), st1)

/-- `CRUDModel.update` (including `_update_one`): locate the record by the
primary-key fields of the deserialized document; raise
`ModelCouldNotBeFound` when none matches; otherwise apply `$set` to the
first match and return the serialised previous and new documents. -/
def crudUpdate (fields : List Column) (document : Doc) (st : MState) :
    Except CrudErr (Doc × Doc) × MState :=
  let errors := crudValidateUpdate fields document
  if !errors.isEmpty then (.error (.validationFailedFields errors), st)
  else
    let d1 := crudDeserializeUpdate fields document
    let keys := pkFilter fields d1
    match st.coll.find? (fun d => matchesDoc keys d) with
    | none => (.error (.modelCouldNotBeFound keys), st)
    | some prev =>
      let newDoc := applySet prev d1
      let coll' := replaceFirst st.coll (fun d => matchesDoc keys d) newDoc
      let r : Except CrudErr (Doc × Doc) :=
        match crudSerialize fields prev with
        | .error e => .error (.pyError e)
        | .ok p =>
          match crudSerialize fields newDoc with
          | .error e => .error (.pyError e)
          | .ok n => .ok (p, n)
      (r, { st with coll := coll' })

/-- `CRUDModel.remove` (including `_delete_many`): validate and deserialize
the filters, then delete every matching document.  The counters collection
is never touched. -/
def crudRemove (fields : List Column) (filters : Doc) (st : MState) :
    Except CrudErr Nat × MState :=
  let errors := crudValidateQuery fields filters
  if !errors.isEmpty then (.error (.validationFailedFields errors), st)
  else
    let flt := crudDeserializeQuery fields filters
    let removed := st.coll.filter (fun d => matchesDoc flt d)
    (.ok removed.length,
      { st with coll := st.coll.filter (fun d => !matchesDoc flt d) })

/-! ## The versioning model (`versioning_mongo.VersioningCRUDModel`)

Specialised to a concrete versioned schema: one integer primary-key field
`key` carrying a unique index, one integer payload field `data`, plus the
two descriptor fields `valid_since_utc` and `valid_until_utc` added by
`VersioningCRUDModel` (`valid_until_utc` is declared with
`IndexType.Unique`).  `CRUDModel._create_indexes` builds one compound
unique index from all `Unique` fields, here `(key, valid_until_utc)`; the
store rejects an insert that duplicates the pair (the mock store used by
the repository's tests enforces the unique index on inserts).  Timestamps
(`datetime.utcnow()`) are abstract `Nat` instants passed as the `now`
argument. -/

/-- One stored record of the versioned collection.  `validUntilUtc = none`
is a stored null: the record is currently valid. -/
structure VDoc where
  key : Nat
  data : Nat
  validSinceUtc : Nat
  validUntilUtc : Option Nat
deriving Repr, DecidableEq

/-- The versioned collection, in insertion order. -/
abbrev VColl := List VDoc

/-- Violation of the compound unique index `(key, valid_until_utc)`. -/
def vConflict (l : VColl) (d : VDoc) : Bool :=
  l.any fun e => e.key == d.key && e.validUntilUtc == d.validUntilUtc

/-- `collection.insert_one` under the unique index: `false` is a
`DuplicateKeyError`, leaving the collection unchanged. -/
def vInsertDoc (l : VColl) (d : VDoc) : Bool × VColl :=
  if vConflict l d then (false, l) else (true, l ++ [d])

/-- `collection.insert_many` (ordered, as pymongo defaults): documents are
inserted one by one and a duplicate key aborts the rest
(`BulkWriteError`). -/
def vInsertDocs (documents : List VDoc) (l : VColl) : Bool × VColl :=
  match documents with
  | [] => (true, l)
  | d :: ds =>
    if vConflict l d then (false, l) else vInsertDocs ds (l ++ [d])

/-- `find_one({key: k, valid_until_utc: None})`: the first currently-valid
record for the key. -/
def vFindOpen (l : VColl) (k : Nat) : Option VDoc :=
  l.find? fun d => d.key == k && d.validUntilUtc == none

/-- `update_one({key: k}, {'$set': {valid_until_utc: now}})`: closes the
FIRST record with the key, whatever its validity state (the source pops
`valid_until_utc` from the filter before this update). -/
def vCloseFirst (now k : Nat) : VColl → VColl
  | [] => []
  | d :: ds =>
    if d.key == k then { d with validUntilUtc := some now } :: ds
    else d :: vCloseFirst now k ds

/-- `update_many({key: k}, {'$set': {valid_until_utc: now}})`: closes ALL
records with the key (used by `rollback_to`). -/
def vCloseAllKey (now k : Nat) (l : VColl) : VColl :=
  l.map fun d => if d.key == k then { d with validUntilUtc := some now } else d

/-- An optional `key` filter, as left by `validate_query` /
`deserialize_query` on the specialised schema. -/
def vMatchF (kf : Option Nat) (d : VDoc) : Bool :=
  match kf with
  | none => true
  | some k => d.key == k

/-- `VersioningCRUDModel._insert_one`: stamp
`valid_since_utc = now, valid_until_utc = None` and insert. -/
def vInsertOne (now k dat : Nat) (l : VColl) : Bool × VColl :=
  vInsertDoc l ⟨k, dat, now, none⟩

/-- `VersioningCRUDModel._insert_many`: stamp every document with the same
`now` and a null validity-end, then `insert_many`. -/
def vInsertMany (now : Nat) (items : List (Nat × Nat)) (l : VColl) : Bool × VColl :=
  vInsertDocs (items.map fun p => ⟨p.1, p.2, now, none⟩) l

/-- Errors raised by the versioned update. -/
inductive VErr where
  | notFound
  | dupKey
deriving Repr, DecidableEq

/-- `VersioningCRUDModel._update_one`: find the currently-valid record for
the primary key (else `ModelCouldNotBeFound`); close the first record
matching the key alone; insert the merged record as the new
currently-valid revision (`deserialize_insert` is the identity on this
schema: no auto-increment fields). -/
def vUpdateOne (now k newData : Nat) (l : VColl) :
    Except VErr (VDoc × VDoc) × VColl :=
  match vFindOpen l k with
  | none => (.error .notFound, l)
  | some prev =>
    let l1 := vCloseFirst now k l
    let newDoc : VDoc := ⟨k, newData, now, none⟩
    match vInsertDoc l1 newDoc with
    | (false, l2) => (.error .dupKey, l2)
    | (true, l2) => (.ok (prev, newDoc), l2)

/-- `VersioningCRUDModel._delete_many`: the query gets
`valid_until_utc: None` added, and every matching (hence currently-valid)
record is closed with `now`; the number of modified records is returned. -/
def vDeleteMany (now : Nat) (kf : Option Nat) (l : VColl) : Nat × VColl :=
  ((l.filter fun d => vMatchF kf d && d.validUntilUtc == none).length,
    l.map fun d =>
      if vMatchF kf d && d.validUntilUtc == none then
        { d with validUntilUtc := some now }
      else d)

/-- The records selected by `rollback_to`: matching the filters, with
`valid_since_utc <= validity` and `valid_until_utc > validity` (a Mongo
`$gt` never matches a stored null, so currently-valid records are
excluded). -/
def vSelect (t : Nat) (kf : Option Nat) (l : VColl) : List VDoc :=
  l.filter fun d =>
    vMatchF kf d && decide (d.validSinceUtc ≤ t) &&
      (match d.validUntilUtc with
       | some u => decide (t < u)
       | none => false)

/-- The first loop of `rollback_to`: for each selected record, if a
currently-valid record for its key exists, close ALL records with that key
(`update_many` on the primary-key filter alone). -/
def vCloseExpired (now : Nat) (sel : List VDoc) (l : VColl) : VColl :=
  match sel with
  | [] => l
  | e :: rest =>
    let l' := if (vFindOpen l e.key).isSome then vCloseAllKey now e.key l else l
    vCloseExpired now rest l'

/-- `VersioningCRUDModel.rollback_to` (after `_get_validity` and
filter validation): select, close, then reinsert every selected record as
a new currently-valid revision and return the count. -/
def vRollbackTo (now t : Nat) (kf : Option Nat) (l : VColl) :
    Except Unit Nat × VColl :=
  let sel := vSelect t kf l
  let l1 := vCloseExpired now sel l
  let stamped := sel.map fun e => { e with validSinceUtc := now, validUntilUtc := none }
  if sel.isEmpty then (.ok 0, l1)
  else
    match vInsertDocs stamped l1 with
    | (true, l2) => (.ok sel.length, l2)
    | (false, l2) => (.error (), l2)

/-- Keys of the currently-valid records, in collection order. -/
def openKeys (l : VColl) : List Nat :=
  (l.filter fun d => d.validUntilUtc == none).map VDoc.key

/-- The versioning invariant: at most one currently-valid record per
primary key. -/
def vGood (l : VColl) : Prop := (openKeys l).Nodup

/-! ## Dictionary lemmas -/

theorem dGet_cons (p : String × Value) (d : Doc) (k : String) :
    dGet (p :: d) k = if p.1 == k then some p.2 else dGet d k := by
  by_cases h : p.1 == k <;> simp [dGet, List.find?, h]

theorem dPop_cons (p : String × Value) (d : Doc) (k : String) :
    dPop (p :: d) k = if p.1 == k then dPop d k else p :: dPop d k := by
  by_cases h : p.1 == k <;> simp [dPop, List.filter_cons, h]

theorem dGet_dSet_self (d : Doc) (k : String) (v : Value) :
    dGet (dSet d k v) k = some v := by
  induction d with
  | nil => simp [dGet, dSet, List.find?]
  | cons p rest ih =>
    by_cases h : p.1 == k
    · simp [dSet, h, dGet_cons]
    · rw [dSet, if_neg (by simp [h]), dGet_cons, if_neg (by simp [h]), ih]

theorem dGet_dSet_ne (d : Doc) (k k' : String) (v : Value) (h : (k' == k) = false) :
    dGet (dSet d k v) k' = dGet d k' := by
  have hne : k' ≠ k := by simpa using h
  have hkk : (k == k') = false := by simpa using Ne.symm hne
  induction d with
  | nil => simp [dGet, dSet, List.find?, hkk]
  | cons p rest ih =>
    by_cases hp : p.1 == k
    · have hpk : p.1 = k := by simpa using hp
      rw [dSet, if_pos hp, dGet_cons, dGet_cons, if_neg (by simp [hkk]),
        if_neg (by rw [hpk]; simp [hkk])]
    · rw [dSet, if_neg (by simp [hp]), dGet_cons, dGet_cons, ih]

theorem dGet_dPop_self (d : Doc) (k : String) : dGet (dPop d k) k = none := by
  induction d with
  | nil => simp [dGet, dPop]
  | cons p rest ih =>
    by_cases h : p.1 == k
    · rw [dPop_cons, if_pos h, ih]
    · rw [dPop_cons, if_neg (by simp [h]), dGet_cons, if_neg (by simp [h]), ih]

theorem dGet_dPop_ne (d : Doc) (k k' : String) (h : (k' == k) = false) :
    dGet (dPop d k) k' = dGet d k' := by
  induction d with
  | nil => simp [dGet, dPop]
  | cons p rest ih =>
    by_cases hp : p.1 == k
    · have hpk : p.1 = k := by simpa using hp
      have hp' : (p.1 == k') = false := by
        rw [hpk]
        simpa using fun he => (by simpa using h : k' ≠ k) he.symm
      rw [dPop_cons, if_pos hp, ih, dGet_cons, if_neg (by simp [hp'])]
    · rw [dPop_cons, if_neg (by simp [hp]), dGet_cons, dGet_cons, ih]

theorem dEqv_of_forall (a b : Doc) (h : ∀ k, dGet a k = dGet b k) :
    dEqv a b = true := by
  have hall : ∀ l : List String, l.all (fun k => dGet a k == dGet b k) = true := by
    intro l
    simp only [List.all_eq_true]
    intro k _
    simp [h k]
  simp [dEqv, hall]

/-! ## Claim C7: sorted `ListColumn` (modelled from the spec) -/

/-- Modelled from the spec: the `sorted` option of `ListColumn` with a
string item column.  The module implementing the option (exercised by
`src/test/test_mongo_controller_string_list.py` through
`layabase._database_mongo.ListColumn(..., sorted=True)`) is not under
`src/`; per the spec, a "sorted" list column stores its elements in sorted
order on insert, whatever the submitted order. -/
structure SortedListColumn where
  name : String
  sortedOpt : Bool
deriving Repr, DecidableEq

/-- Python's string ordering (used by `sorted`): lexicographic comparison of
the code-point sequences. -/
def pyStrLe (a b : String) : Prop := a.data ≤ b.data

instance : DecidableRel pyStrLe := fun a b =>
  inferInstanceAs (Decidable (a.data ≤ b.data))

instance : IsTotal String pyStrLe := ⟨fun a b => le_total a.data b.data⟩

instance : IsTrans String pyStrLe := ⟨fun _ _ _ hab hbc => le_trans hab hbc⟩

/-- Modelled from the spec: insert-time deserialization of the list field
sorts the submitted string elements when the "sorted" option is set. -/
def listDeserializeInsert (c : SortedListColumn) (values : List String) :
    List String :=
  if c.sortedOpt then values.insertionSort pyStrLe else values

/-- Read-side serialization of a string list field: each element passes
through the string item column unchanged (`Column.serialize` has no branch
for `str` fields), so the stored order is returned. -/
def listSerialize (_ : SortedListColumn) (values : List String) : List String :=
  values

/-- Claim C7: for a `ListColumn` with a string item descriptor and the
"sorted" option, the list stored on insert and the list returned on read
are in sorted order regardless of the submitted order; submitting
`["c", "a", "b"]` stores and returns `["a", "b", "c"]`. -/
theorem c7_sorted_list_column (c : SortedListColumn) (values : List String)
    (h : c.sortedOpt = true) :
    List.Sorted pyStrLe (listDeserializeInsert c values) ∧
    (listDeserializeInsert c values).Perm values ∧
    listSerialize c (listDeserializeInsert c values) = listDeserializeInsert c values ∧
    listDeserializeInsert ⟨"list_field", true⟩ ["c", "a", "b"] = ["a", "b", "c"] := by
  refine ⟨?_, ?_, rfl, by decide⟩
  · rw [listDeserializeInsert, if_pos h]
    exact List.sorted_insertionSort pyStrLe values
  · rw [listDeserializeInsert, if_pos h]
    exact List.perm_insertionSort pyStrLe values

/-- Witness for C7 at a concrete input. -/
theorem c7_sorted_list_column_witness :
    List.Sorted pyStrLe (listDeserializeInsert ⟨"list_field", true⟩ ["c", "a", "b"]) :=
  (c7_sorted_list_column ⟨"list_field", true⟩ ["c", "a", "b"] rfl).1

/-! ## Claim C9: schema-definition-time configuration errors -/

/-- Claim C9: constructing a field descriptor raises at schema-definition
time for: auto-increment on a non-int field; a non-nullable field that is
auto-incremented or carries a (truthy) default value; a dot in the field
name; an empty `DictColumn` field definition. -/
theorem c9_config_errors :
    (∀ a : ColumnArgs, a.shouldAutoIncrement = true → a.fieldType ≠ FieldKind.int →
      (columnInit a).isOk = false) ∧
    (∀ a : ColumnArgs, a.isNullable = false → a.shouldAutoIncrement = true →
      (columnInit a).isOk = false) ∧
    (∀ a : ColumnArgs, ∀ v : Value, a.isNullable = false → a.defaultValue = some v →
      v.truthy = true → (columnInit a).isOk = false) ∧
    (∀ a : ColumnArgs, a.name.contains '.' = true → (columnInit a).isOk = false) ∧
    (∀ fields indexFields : List (String × Column), fields = [] →
      (dictColumnInit fields indexFields).isOk = false) := by
  refine ⟨?_, ?_, ?_, ?_, ?_⟩
  · intro a hinc hft
    simp only [columnInit]
    split_ifs <;> first | rfl | simp_all
  · intro a hnul hinc
    simp only [columnInit]
    split_ifs <;> first | rfl | simp_all
  · intro a v hnul hdv htr
    simp only [columnInit, hdv]
    split_ifs <;> first | rfl | simp_all
  · intro a hdot
    simp only [columnInit]
    rw [if_pos hdot]
    rfl
  · intro fields indexFields hf
    subst hf
    rfl

/-- Witness for C9: auto-increment on a `str` field is rejected. -/
theorem c9_config_errors_witness :
    (columnInit ⟨FieldKind.str, "count", none, none, false, false, true, true,
      false⟩).isOk = false :=
  c9_config_errors.1
    ⟨FieldKind.str, "count", none, none, false, false, true, true, false⟩
    rfl (by decide)

deriving instance DecidableEq for Except

/-! ## Claim C8: serialize after deserialize vs serialize -/

theorem pyVal_dPop_self (d : Doc) (k : String) : pyVal (dPop d k) k = none := by
  unfold pyVal
  rw [dGet_dPop_self]

theorem pyVal_dSet_self (d : Doc) (k : String) (v : Value) (hv : v ≠ Value.null) :
    pyVal (dSet d k v) k = some v := by
  unfold pyVal
  rw [dGet_dSet_self]
  cases v <;> simp_all

/-- A deserialized (canonically typed) value is a fixed point of
`_deserialize_value`. -/
theorem deserializeValue_canonical (c : Column) (v : Value)
    (h : isInstanceOf v c.fieldType = true) : deserializeValue c v = v := by
  cases hft : c.fieldType <;> rw [hft] at h <;> cases v <;>
    simp_all [isInstanceOf, deserializeValue]

/-- The present value of the column in the document, when any, already has
the declared storage type (the form `deserialize` produces). -/
def canonicalFor (c : Column) (document : Doc) : Bool :=
  match pyVal document c.name with
  | none => true
  | some v => isInstanceOf v c.fieldType

/-- Claim C8, amended: for a validated document whose present value for the
column is already in the storage representation of the declared type,
serializing the deserialized document equals (as Python dictionaries)
serializing the document directly; the absent/`None` case is filled with
the default value on both sides.  (The claim as stated fails when a
datetime field holds a validated *string*: see the counterexample.) -/
theorem c8_serialize_deserialize_roundtrip (c : Column) (document : Doc)
    (hv : colValidateInsert c document = [])
    (hc : canonicalFor c document = true) :
    ∃ l r, colSerialize c (colDeserializeInsert c document) = .ok l ∧
      colSerialize c document = .ok r ∧ dEqv l r = true := by
  clear hv
  unfold canonicalFor at hc
  cases hpv : pyVal document c.name with
  | none =>
    refine ⟨dSet (dPop document c.name) c.name ((c.defaultValue).getD .null),
            dSet document c.name ((c.defaultValue).getD .null), ?_, ?_, ?_⟩
    · unfold colDeserializeInsert
      rw [hpv]
      unfold colSerialize
      rw [pyVal_dPop_self]
    · unfold colSerialize
      rw [hpv]
    · refine dEqv_of_forall _ _ (fun k => ?_)
      by_cases hk : (k == c.name) = true
      · have hk' : k = c.name := by simpa using hk
        subst hk'
        rw [dGet_dSet_self, dGet_dSet_self]
      · have hk' : (k == c.name) = false := by simpa using hk
        rw [dGet_dSet_ne _ _ _ _ hk', dGet_dSet_ne _ _ _ _ hk',
          dGet_dPop_ne _ _ _ hk']
  | some v =>
    rw [hpv] at hc
    have hc' : isInstanceOf v c.fieldType = true := by simpa using hc
    have hvnull : v ≠ Value.null := by
      intro he
      subst he
      cases hft : c.fieldType <;> rw [hft] at hc' <;> simp [isInstanceOf] at hc'
    have hdes : colDeserializeInsert c document = dSet document c.name v := by
      unfold colDeserializeInsert
      rw [hpv]
      show dSet document c.name (deserializeValue c v) = dSet document c.name v
      rw [deserializeValue_canonical c v hc']
    have hget : dGet document c.name = some v := by
      unfold pyVal at hpv
      cases hg : dGet document c.name with
      | none => rw [hg] at hpv; cases hpv
      | some w =>
        rw [hg] at hpv
        cases w <;> simp_all
    cases hft : c.fieldType with
    | datetime =>
      rw [hft] at hc'
      cases v with
      | dt t =>
        refine ⟨dSet (dSet document c.name (.dt t)) c.name (.str (isoformat t)),
                dSet document c.name (.str (isoformat t)), ?_, ?_, ?_⟩
        · rw [hdes]
          unfold colSerialize
          rw [pyVal_dSet_self _ _ _ hvnull, hft]
        · unfold colSerialize
          rw [hpv, hft]
        · refine dEqv_of_forall _ _ (fun k => ?_)
          by_cases hk : (k == c.name) = true
          · have hk' : k = c.name := by simpa using hk
            subst hk'
            rw [dGet_dSet_self, dGet_dSet_self]
          · have hk' : (k == c.name) = false := by simpa using hk
            rw [dGet_dSet_ne _ _ _ _ hk', dGet_dSet_ne _ _ _ _ hk',
              dGet_dSet_ne _ _ _ _ hk']
      | null => simp [isInstanceOf] at hc'
      | str s => simp [isInstanceOf] at hc'
      | int n => simp [isInstanceOf] at hc'
      | oid n => simp [isInstanceOf] at hc'
    | objectId =>
      refine ⟨dSet (dSet document c.name v) c.name (.str (pyStr v)),
              dSet document c.name (.str (pyStr v)), ?_, ?_, ?_⟩
      · rw [hdes]
        unfold colSerialize
        rw [pyVal_dSet_self _ _ _ hvnull, hft]
      · unfold colSerialize
        rw [hpv, hft]
      · refine dEqv_of_forall _ _ (fun k => ?_)
        by_cases hk : (k == c.name) = true
        · have hk' : k = c.name := by simpa using hk
          subst hk'
          rw [dGet_dSet_self, dGet_dSet_self]
        · have hk' : (k == c.name) = false := by simpa using hk
          rw [dGet_dSet_ne _ _ _ _ hk', dGet_dSet_ne _ _ _ _ hk',
            dGet_dSet_ne _ _ _ _ hk']
    | str =>
      refine ⟨dSet document c.name v, document, ?_, ?_, ?_⟩
      · rw [hdes]
        unfold colSerialize
        rw [pyVal_dSet_self _ _ _ hvnull, hft]
      · unfold colSerialize
        rw [hpv, hft]
      · refine dEqv_of_forall _ _ (fun k => ?_)
        by_cases hk : (k == c.name) = true
        · have hk' : k = c.name := by simpa using hk
          subst hk'
          rw [dGet_dSet_self, hget]
        · have hk' : (k == c.name) = false := by simpa using hk
          rw [dGet_dSet_ne _ _ _ _ hk']
    | int =>
      refine ⟨dSet document c.name v, document, ?_, ?_, ?_⟩
      · rw [hdes]
        unfold colSerialize
        rw [pyVal_dSet_self _ _ _ hvnull, hft]
      · unfold colSerialize
        rw [hpv, hft]
      · refine dEqv_of_forall _ _ (fun k => ?_)
        by_cases hk : (k == c.name) = true
        · have hk' : k = c.name := by simpa using hk
          subst hk'
          rw [dGet_dSet_self, hget]
        · have hk' : (k == c.name) = false := by simpa using hk
          rw [dGet_dSet_ne _ _ _ _ hk']

/-- Witness for the amended C8 at a concrete column and document. -/
theorem c8_serialize_deserialize_roundtrip_witness :
    ∃ l r,
      colSerialize ⟨"name", .str, false, true, false, false, false, none, none⟩
        (colDeserializeInsert
          ⟨"name", .str, false, true, false, false, false, none, none⟩
          [("name", Value.str "x")]) = .ok l ∧
      colSerialize ⟨"name", .str, false, true, false, false, false, none, none⟩
        [("name", Value.str "x")] = .ok r ∧ dEqv l r = true :=
  c8_serialize_deserialize_roundtrip
    ⟨"name", .str, false, true, false, false, false, none, none⟩
    [("name", Value.str "x")] (by decide) (by decide)

/-- The datetime column of the C8 counterexample. -/
def c8col : Column := ⟨"d", .datetime, false, true, false, false, false, none, none⟩

/-- Counterexample to C8 as stated: the document `{"d": "123"}` passes
insert validation for a datetime column, yet serializing it directly
raises (`.isoformat()` on a `str`), while serializing its deserialized
form succeeds — so `serialize(deserialize(X))` differs from
`serialize(X)`. -/
theorem c8_counterexample :
    colValidateInsert c8col [("d", Value.str "123")] = [] ∧
    colSerialize c8col (colDeserializeInsert c8col [("d", Value.str "123")]) =
      .ok [("d", Value.str "123")] ∧
    (colSerialize c8col [("d", Value.str "123")]).isOk = false ∧
    colSerialize c8col (colDeserializeInsert c8col [("d", Value.str "123")]) ≠
      colSerialize c8col [("d", Value.str "123")] := by
  refine ⟨by decide, by decide, by decide, by decide⟩

/-! ## Claim C10: `CRUDModel.serialize` drops undeclared fields -/

theorem contains_iff_mem_str (l : List String) (a : String) :
    l.contains a = true ↔ a ∈ l := by
  simp [List.contains]

/-- Claim C10, amended: an empty/missing stored document serialises to the
empty dictionary, and whenever `CRUDModel.serialize` returns a document it
contains only declared field names; serialisation succeeds whenever the
per-field serialisation succeeds and the set of undeclared keys is either
empty or contains `_id`.  (As stated the claim fails: when undeclared
fields remain but `_id` is not among them — e.g. `_id` is a declared
field — `removed_fields.remove('_id')` raises `ValueError` and no document
is returned; see the counterexample.) -/
theorem c10_serialize_only_declared_fields (fields : List Column) (doc : Doc) :
    (crudSerialize fields [] = .ok []) ∧
    (∀ r : Doc, crudSerialize fields doc = .ok r →
      ∀ k, k ∈ dKeys r → k ∈ fields.map Column.name) ∧
    (∀ d' : Doc, serializeFields fields doc = .ok d' →
      (((dKeys d').filter (fun k => !(fields.map Column.name).contains k)).isEmpty = true ∨
        ((dKeys d').filter (fun k => !(fields.map Column.name).contains k)).contains "_id" = true) →
      (crudSerialize fields doc).isOk = true) := by
  refine ⟨rfl, ?_, ?_⟩
  · intro r hr k hk
    unfold crudSerialize at hr
    by_cases hde : doc.isEmpty
    · rw [if_pos hde] at hr
      cases hr
      simp [dKeys] at hk
    · rw [if_neg hde] at hr
      cases hsf : serializeFields fields doc with
      | error e => rw [hsf] at hr; cases hr
      | ok d' =>
        rw [hsf] at hr
        dsimp only at hr
        have hr' : d'.filter (fun p => (fields.map Column.name).contains p.1) = r := by
          by_cases h1 : ((dKeys d').filter
              (fun k => !(fields.map Column.name).contains k)).isEmpty
          · rw [if_pos h1] at hr
            cases hr
            rfl
          · rw [if_neg h1] at hr
            by_cases h2 : ((dKeys d').filter
                (fun k => !(fields.map Column.name).contains k)).contains "_id"
            · rw [if_pos h2] at hr
              cases hr
              rfl
            · rw [if_neg h2] at hr
              cases hr
        subst hr'
        simp only [dKeys, List.mem_map] at hk
        obtain ⟨p, hp, hpk⟩ := hk
        rw [List.mem_filter] at hp
        subst hpk
        exact (contains_iff_mem_str _ _).mp hp.2
  · intro d' hsf hrem
    unfold crudSerialize
    by_cases hde : doc.isEmpty
    · rw [if_pos hde]
      rfl
    · rw [if_neg hde, hsf]
      dsimp only
      rcases hrem with h1 | h2
      · rw [if_pos h1]
        rfl
      · by_cases h1 : ((dKeys d').filter
            (fun k => !(fields.map Column.name).contains k)).isEmpty
        · rw [if_pos h1]
          rfl
        · rw [if_neg h1, if_pos h2]
          rfl

/-- Witness for the amended C10: serialising a freshly inserted document
(whose only undeclared key is the driver-assigned `_id`) succeeds and
returns only the declared field. -/
theorem c10_serialize_only_declared_fields_witness :
    "key" ∈ [Column.mk "key" .str true false false false false none none].map
      Column.name :=
  (c10_serialize_only_declared_fields
      [Column.mk "key" .str true false false false false none none]
      [("key", Value.str "a"), ("_id", Value.oid 0)]).2.1
    [("key", Value.str "a")] (by decide) "key" (by decide)

/-- Counterexample to C10 as stated: a model that declares `_id` (the
source supports this: `_update_name` gives such a field the `ObjectId`
type) holding a stored document with one leftover field from an older
schema version.  `serialize` deletes the leftover field but then
`removed_fields.remove('_id')` raises `ValueError`, so no document at all
is returned. -/
theorem c10_counterexample :
    crudSerialize
      [Column.mk "_id" .objectId false true false false false none none,
       Column.mk "key" .str true false false false false none none]
      [("_id", Value.oid 1), ("key", Value.str "a"), ("old", Value.int 1)] =
      .error "ValueError: list.remove(x): x not in list" := by
  decide

/-! ## Claim C5: ambiguous and empty lookups -/

theorem find?_eq_none_of_filter_len_zero {α : Type} (l : List α) (p : α → Bool)
    (h : (l.filter p).length = 0) : l.find? p = none := by
  rw [List.find?_eq_none]
  intro x hx hpx
  have hm : x ∈ l.filter p := List.mem_filter.mpr ⟨hx, hpx⟩
  rw [List.length_eq_zero] at h
  rw [h] at hm
  cases hm

theorem dPop_of_absent (d : Doc) (k : String) (h : dGet d k = none) :
    dPop d k = d := by
  unfold dGet at h
  rw [Option.map_eq_none'] at h
  rw [List.find?_eq_none] at h
  unfold dPop
  refine List.filter_eq_self.mpr (fun p hp => ?_)
  simpa using h p hp

/-- Claim C5: for a valid filter set, `get` raises a `ValidationFailed`
when more than one stored record matches the deserialized filters; with
zero matches `get` returns the empty result without raising, and `get_all`
returns the empty list without raising. -/
theorem c5_get_ambiguity_and_empty (fields : List Column) (filters : Doc)
    (st : MState)
    (hv : crudValidateQuery fields filters = [])
    (hl : dGet filters "limit" = none) (ho : dGet filters "offset" = none) :
    (1 < (st.coll.filter
        (fun d => matchesDoc (crudDeserializeQuery fields filters) d)).length →
      crudGet fields filters st =
        .error (.validationFailedMsg "More than one result: Consider another filtering.")) ∧
    ((st.coll.filter
        (fun d => matchesDoc (crudDeserializeQuery fields filters) d)).length = 0 →
      crudGet fields filters st = .ok []) ∧
    ((st.coll.filter
        (fun d => matchesDoc (crudDeserializeQuery fields filters) d)).length = 0 →
      crudGetAll fields filters st = .ok []) := by
  have hf0 : dPop (dPop filters "limit") "offset" = filters := by
    rw [dPop_of_absent _ _ hl, dPop_of_absent _ _ ho]
  refine ⟨?_, ?_, ?_⟩
  · intro hn
    unfold crudGet
    dsimp only
    rw [hv, if_neg (by decide), if_pos hn]
  · intro hn
    unfold crudGet
    dsimp only
    rw [hv, if_neg (by decide), if_neg (by rw [hn]; decide),
      find?_eq_none_of_filter_len_zero _ _ hn]
  · intro hn
    unfold crudGetAll
    dsimp only
    rw [hl, ho]
    dsimp only
    rw [hf0, hv, if_neg (by decide)]
    rw [List.length_eq_zero] at hn
    rw [hn]
    rfl

/-- Witness for C5 on a two-record collection matched ambiguously. -/
theorem c5_get_ambiguity_and_empty_witness :
    crudGet [Column.mk "name" .str false true false false false none none]
      [("name", Value.str "a")]
      ⟨[[("name", Value.str "a"), ("_id", Value.oid 0)],
        [("name", Value.str "a"), ("_id", Value.oid 1)]], [], 2⟩ =
      .error (.validationFailedMsg "More than one result: Consider another filtering.") :=
  (c5_get_ambiguity_and_empty
      [Column.mk "name" .str false true false false false none none]
      [("name", Value.str "a")]
      ⟨[[("name", Value.str "a"), ("_id", Value.oid 0)],
        [("name", Value.str "a"), ("_id", Value.oid 1)]], [], 2⟩
      (by decide) (by decide) (by decide)).1 (by decide)

/-! ## Claim C4: update and `ModelCouldNotBeFound` -/

/-- Claim C4: for a document passing update-validation, `update` raises
`ModelCouldNotBeFound` — a distinct error kind from `ValidationFailed`
(distinct constructors of `CrudErr`) — exactly when no stored record
matches the primary-key fields of the (deserialized) document; when a
record matches, `update` returns the pair of the serialised previous and
new documents. -/
theorem c4_update_not_found (fields : List Column) (document : Doc) (st : MState)
    (hv : crudValidateUpdate fields document = []) :
    ((crudUpdate fields document st).1 =
        .error (.modelCouldNotBeFound
          (pkFilter fields (crudDeserializeUpdate fields document))) ↔
      ∀ d ∈ st.coll,
        matchesDoc (pkFilter fields (crudDeserializeUpdate fields document)) d =
          false) ∧
    (∀ prev, st.coll.find?
        (fun d =>
          matchesDoc (pkFilter fields (crudDeserializeUpdate fields document)) d) =
        some prev →
      ∀ p n, crudSerialize fields prev = .ok p →
        crudSerialize fields
          (applySet prev (crudDeserializeUpdate fields document)) = .ok n →
        (crudUpdate fields document st).1 = .ok (p, n)) := by
  constructor
  · constructor
    · intro hmc
      cases hfind : st.coll.find?
          (fun d =>
            matchesDoc (pkFilter fields (crudDeserializeUpdate fields document)) d) with
      | none =>
        intro d hd
        simpa using List.find?_eq_none.mp hfind d hd
      | some prev =>
        exfalso
        unfold crudUpdate at hmc
        dsimp only at hmc
        rw [hv, if_neg (by decide), hfind] at hmc
        dsimp only at hmc
        cases hs1 : crudSerialize fields prev with
        | error e => rw [hs1] at hmc; cases hmc
        | ok p =>
          rw [hs1] at hmc
          dsimp only at hmc
          cases hs2 : crudSerialize fields
              (applySet prev (crudDeserializeUpdate fields document)) with
          | error e => rw [hs2] at hmc; cases hmc
          | ok n => rw [hs2] at hmc; cases hmc
    · intro hall
      have hfind : st.coll.find?
          (fun d =>
            matchesDoc (pkFilter fields (crudDeserializeUpdate fields document)) d) =
          none :=
        List.find?_eq_none.mpr (fun d hd => by simp [hall d hd])
      unfold crudUpdate
      dsimp only
      rw [hv, if_neg (by decide), hfind]
  · intro prev hfind p n hs1 hs2
    unfold crudUpdate
    dsimp only
    rw [hv, if_neg (by decide), hfind]
    dsimp only
    rw [hs1]
    dsimp only
    rw [hs2]

/-- Witness for C4 on a one-record collection. -/
theorem c4_update_not_found_witness :
    (crudUpdate
        [Column.mk "key" .str true false false false false none none,
         Column.mk "v" .int false true false false false none none]
        [("key", Value.str "k"), ("v", Value.int 2)]
        ⟨[[("key", Value.str "k"), ("v", Value.int 1), ("_id", Value.oid 0)]],
          [], 1⟩).1 =
      .ok ([("key", Value.str "k"), ("v", Value.int 1)],
           [("key", Value.str "k"), ("v", Value.int 2)]) :=
  (c4_update_not_found
      [Column.mk "key" .str true false false false false none none,
       Column.mk "v" .int false true false false false none none]
      [("key", Value.str "k"), ("v", Value.int 2)]
      ⟨[[("key", Value.str "k"), ("v", Value.int 1), ("_id", Value.oid 0)]],
        [], 1⟩ (by decide)).2
    [("key", Value.str "k"), ("v", Value.int 1), ("_id", Value.oid 0)]
    (by decide) _ _ (by decide) (by decide)

/-! ## Claim C6: auto-increment counters -/

theorem incrementCounter_cons_ne (p : (String × String) × Nat) (rest : Counters)
    (cat nm : String) (hp : (p.1 == (cat, nm)) = false) :
    incrementCounter (p :: rest) cat nm =
      ((incrementCounter rest cat nm).1, p :: (incrementCounter rest cat nm).2) := by
  simp only [incrementCounter]
  rw [if_neg (by simp [hp])]

theorem counterValue_cons_ne (p : (String × String) × Nat) (rest : Counters)
    (cat nm : String) (hp : (p.1 == (cat, nm)) = false) :
    counterValue (p :: rest) cat nm = counterValue rest cat nm := by
  unfold counterValue
  rw [List.find?_cons_of_neg _ (by simp [hp])]

theorem counterValue_cons_self (p : (String × String) × Nat) (rest : Counters)
    (cat nm : String) (hp : p.1 = (cat, nm)) :
    counterValue (p :: rest) cat nm = p.2 := by
  unfold counterValue
  rw [List.find?_cons_of_pos _ (by simp [hp])]
  rfl

theorem incrementCounter_val (cnts : Counters) (cat nm : String) :
    (incrementCounter cnts cat nm).1 = counterValue cnts cat nm + 1 ∧
    counterValue (incrementCounter cnts cat nm).2 cat nm =
      counterValue cnts cat nm + 1 := by
  induction cnts with
  | nil =>
    refine ⟨rfl, ?_⟩
    show counterValue [((cat, nm), 1)] cat nm = counterValue [] cat nm + 1
    rw [counterValue_cons_self _ _ _ _ rfl]
    rfl
  | cons p rest ih =>
    by_cases hp : p.1 == (cat, nm)
    · have hpk : p.1 = (cat, nm) := by simpa using hp
      constructor
      · simp only [incrementCounter]
        rw [if_pos hp]
        show p.2 + 1 = counterValue (p :: rest) cat nm + 1
        rw [counterValue_cons_self _ _ _ _ hpk]
      · simp only [incrementCounter]
        rw [if_pos hp]
        show counterValue (((cat, nm), p.2 + 1) :: rest) cat nm =
          counterValue (p :: rest) cat nm + 1
        rw [counterValue_cons_self _ _ _ _ rfl,
          counterValue_cons_self _ _ _ _ hpk]
    · have hp' : (p.1 == (cat, nm)) = false := by simpa using hp
      constructor
      · rw [incrementCounter_cons_ne _ _ _ _ hp', counterValue_cons_ne _ _ _ _ hp']
        exact ih.1
      · rw [incrementCounter_cons_ne _ _ _ _ hp']
        show counterValue (p :: (incrementCounter rest cat nm).2) cat nm =
          counterValue (p :: rest) cat nm + 1
        rw [counterValue_cons_ne _ _ _ _ hp', counterValue_cons_ne _ _ _ _ hp']
        exact ih.2

theorem counterValue_incrementCounter_ne (cnts : Counters) (cat nm cat' nm' : String)
    (h : ((cat', nm') == (cat, nm)) = false) :
    counterValue (incrementCounter cnts cat nm).2 cat' nm' =
      counterValue cnts cat' nm' := by
  have h' : ((cat, nm) == (cat', nm')) = false :=
    beq_eq_false_iff_ne.mpr (Ne.symm (beq_eq_false_iff_ne.mp h))
  induction cnts with
  | nil =>
    show counterValue [((cat, nm), 1)] cat' nm' = counterValue [] cat' nm'
    rw [counterValue_cons_ne _ _ _ _ (by simpa using h')]
  | cons p rest ih =>
    by_cases hp : p.1 == (cat, nm)
    · have hpk : p.1 = (cat, nm) := by simpa using hp
      simp only [incrementCounter]
      rw [if_pos hp]
      show counterValue (((cat, nm), p.2 + 1) :: rest) cat' nm' =
        counterValue (p :: rest) cat' nm'
      rw [counterValue_cons_ne _ _ _ _ (by simpa using h'),
        counterValue_cons_ne _ _ _ _ (by rw [hpk]; exact h')]
    · have hp' : (p.1 == (cat, nm)) = false := by simpa using hp
      rw [incrementCounter_cons_ne _ _ _ _ hp']
      show counterValue (p :: (incrementCounter rest cat nm).2) cat' nm' =
        counterValue (p :: rest) cat' nm'
      by_cases hq : p.1 == (cat', nm')
      · have hqk : p.1 = (cat', nm') := by simpa using hq
        rw [counterValue_cons_self _ _ _ _ hqk, counterValue_cons_self _ _ _ _ hqk]
      · have hq' : (p.1 == (cat', nm')) = false := by simpa using hq
        rw [counterValue_cons_ne _ _ _ _ hq', counterValue_cons_ne _ _ _ _ hq']
        exact ih

theorem colDeserializeInsert_dGet_ne (c : Column) (d : Doc) (k : String)
    (hk : (k == c.name) = false) :
    dGet (colDeserializeInsert c d) k = dGet d k := by
  unfold colDeserializeInsert
  cases pyVal d c.name with
  | none => exact dGet_dPop_ne _ _ _ hk
  | some v => exact dGet_dSet_ne _ _ _ _ hk

theorem foldDes_dGet_preserve (tbl : String) (fs : List Column)
    (acc : Doc × Counters) (k : String)
    (h : ∀ f ∈ fs, (k == f.name) = false) :
    dGet (fs.foldl (desStep tbl) acc).1 k = dGet acc.1 k := by
  induction fs generalizing acc with
  | nil => rfl
  | cons f rest ih =>
    rw [List.foldl_cons, ih _ (fun g hg => h g (List.mem_cons_of_mem _ hg))]
    have hk : (k == f.name) = false := h f (List.mem_cons_self _ _)
    unfold desStep
    dsimp only
    split
    · rw [dGet_dSet_ne _ _ _ _ hk]
      exact colDeserializeInsert_dGet_ne _ _ _ hk
    · exact colDeserializeInsert_dGet_ne _ _ _ hk

theorem foldDes_assigns (tbl : String) (fs : List Column) (acc : Doc × Counters)
    (c : Column) (hnd : (fs.map Column.name).Nodup) (hc : c ∈ fs)
    (hinc : c.shouldAutoIncrement = true) :
    dGet (fs.foldl (desStep tbl) acc).1 c.name =
      some (.int (Int.ofNat (counterValue acc.2 tbl c.name + 1))) := by
  induction fs generalizing acc with
  | nil => cases hc
  | cons f rest ih =>
    rw [List.map_cons, List.nodup_cons] at hnd
    rw [List.foldl_cons]
    rcases List.mem_cons.mp hc with hcf | hcr
    · subst hcf
      have hstep : desStep tbl acc c =
          (dSet (colDeserializeInsert c acc.1) c.name
            (.int (Int.ofNat (incrementCounter acc.2 tbl c.name).1)),
           (incrementCounter acc.2 tbl c.name).2) := by
        unfold desStep
        dsimp only
        rw [if_pos hinc]
      have hnames : ∀ g ∈ rest, (c.name == g.name) = false := by
        intro g hg
        have hmem : g.name ∈ rest.map Column.name := List.mem_map_of_mem _ hg
        have hne : c.name ≠ g.name := fun he => hnd.1 (he ▸ hmem)
        simpa using hne
      rw [hstep, foldDes_dGet_preserve _ _ _ _ hnames]
      show dGet (dSet (colDeserializeInsert c acc.1) c.name
          (.int (Int.ofNat (incrementCounter acc.2 tbl c.name).1))) c.name =
        some (.int (Int.ofNat (counterValue acc.2 tbl c.name + 1)))
      rw [dGet_dSet_self, (incrementCounter_val acc.2 tbl c.name).1]
    · have hne : c.name ≠ f.name := by
        intro he
        exact hnd.1 (he ▸ List.mem_map_of_mem _ hcr)
      have hcnt : counterValue (desStep tbl acc f).2 tbl c.name =
          counterValue acc.2 tbl c.name := by
        unfold desStep
        dsimp only
        split
        · show counterValue (incrementCounter acc.2 tbl f.name).2 tbl c.name =
            counterValue acc.2 tbl c.name
          refine counterValue_incrementCounter_ne _ _ _ _ _ ?_
          refine beq_eq_false_iff_ne.mpr (fun he => hne ?_)
          exact congrArg Prod.snd he
        · rfl
      rw [ih (desStep tbl acc f) hnd.2 hcr, hcnt]

/-- The auto-increment integer column of the C6 scenario
(`is_nullable` is forced to `True` by `Column.__init__` for auto-increment
fields). -/
def autoCol : Column := ⟨"key", .int, true, true, true, false, false, none, none⟩

/-- Claim C6: each insert assigns an auto-increment field the value of its
(category, name) counter after an increment by one, so successive inserts
receive strictly increasing values; `remove`/`_delete_many` never touches
the counters collection; in particular insert key=1, delete, insert again
yields key=2, never reusing a deleted value. -/
theorem c6_auto_increment :
    (∀ cnts : Counters, ∀ cat nm : String,
      (incrementCounter cnts cat nm).1 = counterValue cnts cat nm + 1 ∧
      counterValue (incrementCounter cnts cat nm).2 cat nm =
        counterValue cnts cat nm + 1) ∧
    (∀ cnts : Counters, ∀ cat nm : String,
      (incrementCounter cnts cat nm).1 <
        (incrementCounter (incrementCounter cnts cat nm).2 cat nm).1) ∧
    (∀ fields : List Column, ∀ filters : Doc, ∀ st : MState,
      (crudRemove fields filters st).2.counters = st.counters) ∧
    (∀ fields : List Column, ∀ tbl : String, ∀ c : Column, ∀ document : Doc,
      ∀ cnts : Counters, (fields.map Column.name).Nodup → c ∈ fields →
      c.shouldAutoIncrement = true →
      dGet (crudDeserializeInsert fields tbl document cnts).1 c.name =
        some (.int (Int.ofNat (counterValue cnts tbl c.name + 1)))) ∧
    ((crudAdd [autoCol] "t" [("key", Value.null)] ⟨[], [], 0⟩).1 =
        .ok [("key", Value.int 1)] ∧
      (crudRemove [autoCol] []
        (crudAdd [autoCol] "t" [("key", Value.null)] ⟨[], [], 0⟩).2).1 = .ok 1 ∧
      (crudAdd [autoCol] "t" [("key", Value.null)]
        (crudRemove [autoCol] []
          (crudAdd [autoCol] "t" [("key", Value.null)] ⟨[], [], 0⟩).2).2).1 =
        .ok [("key", Value.int 2)]) := by
  refine ⟨incrementCounter_val, ?_, ?_, ?_, by decide, by decide, by decide⟩
  · intro cnts cat nm
    rw [(incrementCounter_val cnts cat nm).1,
      (incrementCounter_val (incrementCounter cnts cat nm).2 cat nm).1,
      (incrementCounter_val cnts cat nm).2]
    exact Nat.lt_succ_self _
  · intro fields filters st
    unfold crudRemove
    dsimp only
    split <;> rfl
  · intro fields tbl c document cnts hnd hc hinc
    exact foldDes_assigns tbl fields (removeUnknownFields fields document, cnts)
      c hnd hc hinc

/-- Witness for C6: the assignment lemma at a concrete schema and state. -/
theorem c6_auto_increment_witness :
    dGet (crudDeserializeInsert [autoCol] "t" [("key", Value.null)] []).1 "key" =
      some (Value.int 1) :=
  c6_auto_increment.2.2.2.1 [autoCol] "t" autoCol [("key", Value.null)] []
    (by decide) (by decide) (by decide)

/-! ## Claim C3: batch insert is all-or-nothing -/

theorem listIsEmpty_iff {α : Type} (l : List α) : l.isEmpty = true ↔ l = [] := by
  cases l <;> simp

/-- The validation failures of a batch, keyed by batch position (the
contents of the `errors` dictionary built by `add_all`). -/
def batchFailures (fields : List Column) : List Doc → List (Nat × FieldErrors)
  | [] => []
  | d :: ds =>
    if (crudValidateInsert fields d).isEmpty then
      (batchFailures fields ds).map (fun p => (p.1 + 1, p.2))
    else
      (0, crudValidateInsert fields d) ::
        (batchFailures fields ds).map (fun p => (p.1 + 1, p.2))

theorem batchFailures_mem (fields : List Column) (documents : List Doc) :
    ∀ i e, (i, e) ∈ batchFailures fields documents ↔
      i < documents.length ∧ crudValidateInsert fields (documents.getD i []) ≠ [] ∧
        e = crudValidateInsert fields (documents.getD i []) := by
  induction documents with
  | nil => simp [batchFailures]
  | cons d ds ih =>
    intro i e
    have hshift : (i, e) ∈ (batchFailures fields ds).map (fun p => (p.1 + 1, p.2)) ↔
        ∃ j, (j, e) ∈ batchFailures fields ds ∧ i = j + 1 := by
      rw [List.mem_map]
      constructor
      · rintro ⟨⟨j, e'⟩, hm, he⟩
        cases he
        exact ⟨j, hm, rfl⟩
      · rintro ⟨j, hm, he⟩
        exact ⟨(j, e), hm, by rw [he]⟩
    by_cases hval : (crudValidateInsert fields d).isEmpty
    · rw [show batchFailures fields (d :: ds) =
          (batchFailures fields ds).map (fun p => (p.1 + 1, p.2)) by
          simp only [batchFailures]
          rw [if_pos hval]]
      rw [hshift]
      constructor
      · rintro ⟨j, hm, he⟩
        subst he
        rcases (ih j e).mp hm with ⟨hj, hv, hev⟩
        exact ⟨Nat.succ_lt_succ hj, hv, hev⟩
      · rintro ⟨hi, hv, hev⟩
        cases i with
        | zero =>
          exfalso
          exact hv (by simpa [List.getD] using (listIsEmpty_iff _).mp hval)
        | succ j =>
          exact ⟨j, (ih j e).mpr ⟨Nat.lt_of_succ_lt_succ hi, hv, hev⟩, rfl⟩
    · rw [show batchFailures fields (d :: ds) =
          (0, crudValidateInsert fields d) ::
            (batchFailures fields ds).map (fun p => (p.1 + 1, p.2)) by
          simp only [batchFailures]
          rw [if_neg hval]]
      rw [List.mem_cons, hshift]
      constructor
      · rintro (he | ⟨j, hm, hi⟩)
        · rw [Prod.mk.injEq] at he
          refine ⟨by rw [he.1]; exact Nat.succ_pos _, ?_, ?_⟩
          · rw [he.1]
            intro hnil
            exact hval (by simp [List.getD] at hnil ⊢; simp [hnil])
          · rw [he.1, he.2]
            simp [List.getD]
        · subst hi
          rcases (ih j e).mp hm with ⟨hj, hv, hev⟩
          exact ⟨Nat.succ_lt_succ hj, hv, hev⟩
      · rintro ⟨hi, hv, hev⟩
        cases i with
        | zero =>
          left
          rw [Prod.mk.injEq]
          exact ⟨rfl, by simpa [List.getD] using hev⟩
        | succ j =>
          right
          exact ⟨j, (ih j e).mpr ⟨Nat.lt_of_succ_lt_succ hi, hv, hev⟩, rfl⟩

theorem batchFailures_eq_nil_iff (fields : List Column) (documents : List Doc) :
    batchFailures fields documents = [] ↔
      ∀ d ∈ documents, crudValidateInsert fields d = [] := by
  induction documents with
  | nil => simp [batchFailures]
  | cons d ds ih =>
    by_cases hval : (crudValidateInsert fields d).isEmpty
    · rw [show batchFailures fields (d :: ds) =
          (batchFailures fields ds).map (fun p => (p.1 + 1, p.2)) by
          simp only [batchFailures]
          rw [if_pos hval]]
      rw [List.map_eq_nil_iff, ih]
      simp only [List.mem_cons]
      constructor
      · intro h e he
        rcases he with he | he
        · subst he
          exact (listIsEmpty_iff _).mp hval
        · exact h e he
      · intro h e he
        exact h e (Or.inr he)
    · rw [show batchFailures fields (d :: ds) =
          (0, crudValidateInsert fields d) ::
            (batchFailures fields ds).map (fun p => (p.1 + 1, p.2)) by
          simp only [batchFailures]
          rw [if_neg hval]]
      simp only [List.mem_cons]
      constructor
      · intro h
        cases h
      · intro h
        exact absurd ((listIsEmpty_iff _).mpr (h d (Or.inl rfl))) hval

theorem addAllLoop_spec (fields : List Column) (tbl : String) (documents : List Doc)
    (cnts : Counters) :
    (addAllLoop fields tbl documents cnts).1 = batchFailures fields documents ∧
    (addAllLoop fields tbl documents cnts).2.1.length = documents.length := by
  induction documents generalizing cnts with
  | nil => exact ⟨rfl, rfl⟩
  | cons d ds ih =>
    by_cases hval : (crudValidateInsert fields d).isEmpty
    · have hstep : addAllLoop fields tbl (d :: ds) cnts =
          ((addAllLoop fields tbl ds
              (crudDeserializeInsert fields tbl d cnts).2).1.map
            (fun p => (p.1 + 1, p.2)),
           ((crudDeserializeInsert fields tbl d cnts).1 ::
              (addAllLoop fields tbl ds
                (crudDeserializeInsert fields tbl d cnts).2).2.1,
            (addAllLoop fields tbl ds
              (crudDeserializeInsert fields tbl d cnts).2).2.2)) := by
        simp only [addAllLoop]
        rw [if_pos hval]
      rw [hstep]
      refine ⟨?_, ?_⟩
      · show ((addAllLoop fields tbl ds
            (crudDeserializeInsert fields tbl d cnts).2).1.map
              (fun p => (p.1 + 1, p.2))) = batchFailures fields (d :: ds)
        rw [(ih _).1]
        simp only [batchFailures]
        rw [if_pos hval]
      · show ((crudDeserializeInsert fields tbl d cnts).1 ::
            (addAllLoop fields tbl ds
              (crudDeserializeInsert fields tbl d cnts).2).2.1).length =
          (d :: ds).length
        rw [List.length_cons, List.length_cons, (ih _).2]
    · have hstep : addAllLoop fields tbl (d :: ds) cnts =
          ((0, crudValidateInsert fields d) ::
            (addAllLoop fields tbl ds cnts).1.map (fun p => (p.1 + 1, p.2)),
           (d :: (addAllLoop fields tbl ds cnts).2.1,
            (addAllLoop fields tbl ds cnts).2.2)) := by
        simp only [addAllLoop]
        rw [if_neg hval]
      rw [hstep]
      refine ⟨?_, ?_⟩
      · show (0, crudValidateInsert fields d) ::
            (addAllLoop fields tbl ds cnts).1.map (fun p => (p.1 + 1, p.2)) =
          batchFailures fields (d :: ds)
        rw [(ih _).1]
        simp only [batchFailures]
        rw [if_neg hval]
      · show (d :: (addAllLoop fields tbl ds cnts).2.1).length = (d :: ds).length
        rw [List.length_cons, List.length_cons, (ih _).2]

theorem insertOneDoc_spec (st : MState) (d : Doc) :
    (insertOneDoc st d).1.coll = st.coll ++ [(insertOneDoc st d).2] ∧
    (insertOneDoc st d).1.counters = st.counters := by
  unfold insertOneDoc
  split <;> exact ⟨rfl, rfl⟩

theorem insertManyDocs_spec (documents : List Doc) (st : MState) :
    (insertManyDocs documents st).2.coll =
      st.coll ++ (insertManyDocs documents st).1 ∧
    (insertManyDocs documents st).1.length = documents.length ∧
    (insertManyDocs documents st).2.counters = st.counters := by
  induction documents generalizing st with
  | nil =>
    refine ⟨?_, rfl, rfl⟩
    show st.coll = st.coll ++ ([] : List Doc)
    rw [List.append_nil]
  | cons d ds ih =>
    have hstep : insertManyDocs (d :: ds) st =
        ((insertOneDoc st d).2 :: (insertManyDocs ds (insertOneDoc st d).1).1,
         (insertManyDocs ds (insertOneDoc st d).1).2) := rfl
    rw [hstep]
    refine ⟨?_, ?_, ?_⟩
    · show (insertManyDocs ds (insertOneDoc st d).1).2.coll =
        st.coll ++ ((insertOneDoc st d).2 ::
          (insertManyDocs ds (insertOneDoc st d).1).1)
      rw [(ih _).1, (insertOneDoc_spec st d).1]
      simp
    · show ((insertOneDoc st d).2 ::
          (insertManyDocs ds (insertOneDoc st d).1).1).length = (d :: ds).length
      rw [List.length_cons, List.length_cons, (ih _).2.1]
    · show (insertManyDocs ds (insertOneDoc st d).1).2.counters = st.counters
      rw [(ih _).2.2, (insertOneDoc_spec st d).2]

/-- Claim C3: for a non-empty batch, if any document fails insert
validation then `add_all` raises a `ValidationFailed` whose error mapping
is keyed by exactly the batch positions of the failing documents, the
store insert is never invoked and the collection is unchanged; only when
every document validates is the whole batch inserted and returned
serialised. -/
theorem c3_add_all_all_or_nothing (fields : List Column) (tbl : String)
    (documents : List Doc) (st : MState) (hne : documents ≠ []) :
    (∀ i e, (i, e) ∈ batchFailures fields documents ↔
      i < documents.length ∧ crudValidateInsert fields (documents.getD i []) ≠ [] ∧
        e = crudValidateInsert fields (documents.getD i [])) ∧
    (batchFailures fields documents = [] ↔
      ∀ d ∈ documents, crudValidateInsert fields d = []) ∧
    (batchFailures fields documents ≠ [] →
      (crudAddAll fields tbl documents st).1 =
        .error (.validationFailedIndexed (batchFailures fields documents)) ∧
      (crudAddAll fields tbl documents st).2.coll = st.coll) ∧
    (batchFailures fields documents = [] →
      ∃ inserted : List Doc, inserted.length = documents.length ∧
        (crudAddAll fields tbl documents st).2.coll = st.coll ++ inserted ∧
        (crudAddAll fields tbl documents st).1 =
          (inserted.mapM (crudSerialize fields)).mapError .pyError) := by
  have hloop := addAllLoop_spec fields tbl documents st.counters
  have hien : documents.isEmpty = false := by
    cases documents with
    | nil => exact absurd rfl hne
    | cons d ds => rfl
  refine ⟨batchFailures_mem fields documents,
    batchFailures_eq_nil_iff fields documents, ?_, ?_⟩
  · intro hfail
    unfold crudAddAll
    rw [hien]
    dsimp only
    rw [hloop.1,
      if_neg (fun hc => hfail ((listIsEmpty_iff _).mp hc))]
    exact ⟨rfl, rfl⟩
  · intro hok
    unfold crudAddAll
    rw [hien]
    dsimp only
    rw [hloop.1, if_pos ((listIsEmpty_iff _).mpr hok)]
    refine ⟨(insertManyDocs (addAllLoop fields tbl documents st.counters).2.1
        { st with counters := (addAllLoop fields tbl documents st.counters).2.2 }).1,
      ?_, ?_, ?_⟩
    · rw [(insertManyDocs_spec _ _).2.1, hloop.2]
    · exact (insertManyDocs_spec _ _).1
    · rfl

/-- Witness for C3: a batch whose second document fails validation is
rejected whole, keyed by position 1, leaving the collection empty. -/
theorem c3_add_all_all_or_nothing_witness :
    (crudAddAll [Column.mk "name" .str false false false true false none none]
        "t" [[("name", Value.str "a")], [("name", Value.int 3)]]
        ⟨[], [], 0⟩).1 =
      .error (.validationFailedIndexed
        (batchFailures
          [Column.mk "name" .str false false false true false none none]
          [[("name", Value.str "a")], [("name", Value.int 3)]])) ∧
    (crudAddAll [Column.mk "name" .str false false false true false none none]
        "t" [[("name", Value.str "a")], [("name", Value.int 3)]]
        ⟨[], [], 0⟩).2.coll = [] :=
  (c3_add_all_all_or_nothing
      [Column.mk "name" .str false false false true false none none]
      "t" [[("name", Value.str "a")], [("name", Value.int 3)]]
      ⟨[], [], 0⟩ (by decide)).2.2.1 (by decide)

/-! ## Claim C1: the versioning invariant -/

instance (l : VColl) : Decidable (vGood l) :=
  inferInstanceAs (Decidable (openKeys l).Nodup)

theorem openKeys_append (l1 l2 : VColl) :
    openKeys (l1 ++ l2) = openKeys l1 ++ openKeys l2 := by
  unfold openKeys
  rw [List.filter_append, List.map_append]

theorem openKeys_cons_open (d : VDoc) (l : VColl) (h : d.validUntilUtc = none) :
    openKeys (d :: l) = d.key :: openKeys l := by
  unfold openKeys
  rw [List.filter_cons_of_pos (by simp [h]), List.map_cons]

theorem openKeys_cons_closed (d : VDoc) (l : VColl) (t : Nat)
    (h : d.validUntilUtc = some t) : openKeys (d :: l) = openKeys l := by
  unfold openKeys
  rw [List.filter_cons_of_neg (by simp [h])]

theorem openKeys_suffix (d : VDoc) (l : VColl) :
    List.Sublist (openKeys l) (openKeys (d :: l)) := by
  cases h : d.validUntilUtc with
  | none =>
    rw [openKeys_cons_open _ _ h]
    exact (List.Sublist.refl _).cons _
  | some t =>
    rw [openKeys_cons_closed _ _ _ h]

theorem mem_openKeys (l : VColl) (k : Nat) :
    k ∈ openKeys l ↔ ∃ d ∈ l, d.validUntilUtc = none ∧ d.key = k := by
  unfold openKeys
  simp only [List.mem_map, List.mem_filter]
  constructor
  · rintro ⟨d, ⟨hd, hu⟩, hk⟩
    exact ⟨d, hd, by simpa using hu, hk⟩
  · rintro ⟨d, hd, hu, hk⟩
    exact ⟨d, ⟨hd, by simpa using hu⟩, hk⟩

theorem vAppend_good (l : VColl) (d : VDoc) (hnc : vConflict l d = false)
    (hg : vGood l) : vGood (l ++ [d]) := by
  unfold vGood
  rw [openKeys_append]
  cases hu : d.validUntilUtc with
  | some t =>
    rw [openKeys_cons_closed _ _ _ hu]
    simpa [openKeys] using hg
  | none =>
    rw [openKeys_cons_open _ _ hu]
    show (openKeys l ++ (d.key :: openKeys [])).Nodup
    rw [show openKeys ([] : VColl) = [] from rfl, List.nodup_append]
    refine ⟨hg, List.nodup_singleton _, ?_⟩
    intro k hk hks
    rw [List.mem_singleton] at hks
    subst hks
    rcases (mem_openKeys l d.key).mp hk with ⟨e, he, heu, hek⟩
    have hall : ∀ x ∈ l, x.key = d.key → ¬x.validUntilUtc = d.validUntilUtc := by
      simpa [vConflict] using hnc
    exact hall e he hek (by rw [heu, hu])

theorem vInsertDoc_good (l : VColl) (d : VDoc) (hg : vGood l) :
    vGood (vInsertDoc l d).2 := by
  unfold vInsertDoc
  by_cases hc : vConflict l d
  · rw [if_pos hc]
    exact hg
  · rw [if_neg hc]
    exact vAppend_good l d (by simpa using hc) hg

theorem vInsertDocs_good (documents : List VDoc) (l : VColl) (hg : vGood l) :
    vGood (vInsertDocs documents l).2 := by
  induction documents generalizing l with
  | nil => exact hg
  | cons d ds ih =>
    unfold vInsertDocs
    by_cases hc : vConflict l d
    · rw [if_pos hc]
      exact hg
    · rw [if_neg hc]
      exact ih _ (vAppend_good l d (by simpa using hc) hg)

theorem openKeys_closeIf_sublist (now : Nat) (p : VDoc → Bool) (l : VColl) :
    List.Sublist
      (openKeys (l.map fun d =>
        if p d then { d with validUntilUtc := some now } else d))
      (openKeys l) := by
  induction l with
  | nil => exact List.Sublist.refl _
  | cons d rest ih =>
    rw [List.map_cons]
    by_cases hp : p d
    · rw [if_pos hp, openKeys_cons_closed _ _ now rfl]
      exact ih.trans (openKeys_suffix d rest)
    · rw [if_neg hp]
      cases hu : d.validUntilUtc with
      | none =>
        rw [openKeys_cons_open _ _ hu, openKeys_cons_open _ _ hu]
        exact ih.cons₂ d.key
      | some t =>
        rw [openKeys_cons_closed _ _ _ hu, openKeys_cons_closed _ _ _ hu]
        exact ih

theorem openKeys_vCloseFirst_sublist (now k : Nat) (l : VColl) :
    List.Sublist (openKeys (vCloseFirst now k l)) (openKeys l) := by
  induction l with
  | nil => exact List.Sublist.refl _
  | cons d rest ih =>
    unfold vCloseFirst
    by_cases hk : (d.key == k) = true
    · rw [if_pos hk, openKeys_cons_closed _ _ now rfl]
      exact openKeys_suffix d rest
    · rw [if_neg hk]
      cases hu : d.validUntilUtc with
      | none =>
        rw [openKeys_cons_open _ _ hu, openKeys_cons_open _ _ hu]
        exact ih.cons₂ d.key
      | some t =>
        rw [openKeys_cons_closed _ _ _ hu, openKeys_cons_closed _ _ _ hu]
        exact ih

theorem vCloseAllKey_good (now k : Nat) (l : VColl) (hg : vGood l) :
    vGood (vCloseAllKey now k l) :=
  List.Nodup.sublist (openKeys_closeIf_sublist now _ l) hg

theorem vCloseExpired_good (now : Nat) (sel : List VDoc) (l : VColl)
    (hg : vGood l) : vGood (vCloseExpired now sel l) := by
  induction sel generalizing l with
  | nil => exact hg
  | cons e rest ih =>
    unfold vCloseExpired
    by_cases hfo : (vFindOpen l e.key).isSome
    · rw [if_pos hfo]
      exact ih _ (vCloseAllKey_good now e.key l hg)
    · rw [if_neg hfo]
      exact ih _ hg

/-- Claim C1: on any state in which each primary key has at most one
currently-valid record (null validity-end), every one of `_insert_one`,
`_insert_many`, `_update_one`, `_delete_many` and `rollback_to` preserves
that property, whatever its arguments and outcome (the compound unique
index `(key, valid_until_utc)` makes the store reject an insert that would
create a second currently-valid record for a key). -/
theorem c1_versioning_invariant_preserved (l : VColl) (hg : vGood l) :
    (∀ now k dat, vGood (vInsertOne now k dat l).2) ∧
    (∀ now items, vGood (vInsertMany now items l).2) ∧
    (∀ now k newData, vGood (vUpdateOne now k newData l).2) ∧
    (∀ now kf, vGood (vDeleteMany now kf l).2) ∧
    (∀ now t kf, vGood (vRollbackTo now t kf l).2) := by
  refine ⟨?_, ?_, ?_, ?_, ?_⟩
  · intro now k dat
    exact vInsertDoc_good l _ hg
  · intro now items
    exact vInsertDocs_good _ l hg
  · intro now k newData
    unfold vUpdateOne
    cases hfo : vFindOpen l k with
    | none => exact hg
    | some prev =>
      dsimp only
      have hg1 : vGood (vCloseFirst now k l) :=
        List.Nodup.sublist (openKeys_vCloseFirst_sublist now k l) hg
      have hgi : vGood (vInsertDoc (vCloseFirst now k l) ⟨k, newData, now, none⟩).2 :=
        vInsertDoc_good _ _ hg1
      rcases hins : vInsertDoc (vCloseFirst now k l) ⟨k, newData, now, none⟩
        with ⟨b, l2⟩
      rw [hins] at hgi
      cases b <;> exact hgi
  · intro now kf
    exact List.Nodup.sublist (openKeys_closeIf_sublist now _ l) hg
  · intro now t kf
    unfold vRollbackTo
    dsimp only
    have hg1 : vGood (vCloseExpired now (vSelect t kf l) l) :=
      vCloseExpired_good now _ l hg
    by_cases hsel : (vSelect t kf l).isEmpty
    · rw [if_pos hsel]
      exact hg1
    · rw [if_neg hsel]
      have hgi : vGood (vInsertDocs
          ((vSelect t kf l).map fun e =>
            { e with validSinceUtc := now, validUntilUtc := none })
          (vCloseExpired now (vSelect t kf l) l)).2 :=
        vInsertDocs_good _ _ hg1
      rcases hins : vInsertDocs
          ((vSelect t kf l).map fun e =>
            { e with validSinceUtc := now, validUntilUtc := none })
          (vCloseExpired now (vSelect t kf l) l) with ⟨b, l2⟩
      rw [hins] at hgi
      rw [hins]
      cases b <;> exact hgi

/-- Witness for C1 at a concrete two-record state. -/
theorem c1_versioning_invariant_preserved_witness :
    vGood (vUpdateOne 7 1 99 [⟨1, 10, 0, some 5⟩, ⟨1, 20, 5, none⟩]).2 :=
  (c1_versioning_invariant_preserved [⟨1, 10, 0, some 5⟩, ⟨1, 20, 5, none⟩]
    (by decide)).2.2.1 7 1 99

/-! ## Claim C2: what `rollback_to` actually does -/

theorem contains_iff_mem_nat (l : List Nat) (a : Nat) :
    l.contains a = true ↔ a ∈ l := by
  simp [List.contains]

/-- The keys of the selected records that have a currently-valid record in
the initial state (those whose first rollback loop iteration runs the
`update_many`). -/
def activeKeys (sel : List VDoc) (l : VColl) : List Nat :=
  (sel.filter (fun e => (vFindOpen l e.key).isSome)).map VDoc.key

theorem mem_activeKeys (sel : List VDoc) (l : VColl) (k : Nat) :
    k ∈ activeKeys sel l ↔
      ∃ e ∈ sel, e.key = k ∧ (vFindOpen l e.key).isSome = true := by
  unfold activeKeys
  simp only [List.mem_map, List.mem_filter]
  constructor
  · rintro ⟨e, ⟨he, hfo⟩, hk⟩
    exact ⟨e, he, hk, hfo⟩
  · rintro ⟨e, he, hk, hfo⟩
    exact ⟨e, ⟨he, hfo⟩, hk⟩

theorem activeKeys_subset_keys (sel : List VDoc) (l : VColl) (k : Nat)
    (h : k ∈ activeKeys sel l) : k ∈ sel.map VDoc.key := by
  rcases (mem_activeKeys sel l k).mp h with ⟨e, he, hk, _⟩
  exact hk ▸ List.mem_map_of_mem _ he

theorem vFindOpen_cons (d : VDoc) (l : VColl) (k : Nat) :
    vFindOpen (d :: l) k =
      if (d.key == k && d.validUntilUtc == none) = true then some d
      else vFindOpen l k := by
  by_cases hp : (d.key == k && d.validUntilUtc == none) = true
  · rw [if_pos hp]
    exact List.find?_cons_of_pos _ hp
  · rw [if_neg hp]
    exact List.find?_cons_of_neg _ hp

theorem vFindOpen_vCloseAllKey_ne (now k k' : Nat) (l : VColl) (h : k' ≠ k) :
    vFindOpen (vCloseAllKey now k l) k' = vFindOpen l k' := by
  induction l with
  | nil => rfl
  | cons d rest ih =>
    rw [show vCloseAllKey now k (d :: rest) =
        (if (d.key == k) = true then { d with validUntilUtc := some now } else d) ::
          vCloseAllKey now k rest from rfl]
    by_cases hd : (d.key == k) = true
    · have hdk : d.key = k := by simpa using hd
      have hne : (d.key == k') = false := by
        rw [hdk]
        simpa using fun he => h he.symm
      rw [if_pos hd, vFindOpen_cons, vFindOpen_cons,
        if_neg (by simp [hne]), if_neg (by simp [hne])]
      exact ih
    · rw [if_neg hd, vFindOpen_cons, vFindOpen_cons, ih]

/-- The pointwise effect of composing the first-iteration `update_many`
closing (on one key) with the closings of the remaining iterations. -/
theorem closeIf_comp (now : Nat) (ak : List Nat) (ek : Nat) (d : VDoc)
    (hna : ak.contains ek = false) :
    (fun d => if ak.contains d.key
        then { d with validUntilUtc := some now } else d)
      (if (d.key == ek) = true then { d with validUntilUtc := some now } else d) =
    (if (ek :: ak).contains d.key
      then { d with validUntilUtc := some now } else d) := by
  by_cases hdk : (d.key == ek) = true
  · have hdke : d.key = ek := by simpa using hdk
    rw [if_pos hdk]
    dsimp only
    have h1 : ak.contains ({ d with validUntilUtc := some now } : VDoc).key = false := by
      show ak.contains d.key = false
      rw [hdke]
      exact hna
    rw [h1, if_neg (by simp),
      if_pos ((contains_iff_mem_nat _ _).mpr
        (by rw [hdke]; exact List.mem_cons_self _ _))]
  · rw [if_neg hdk]
    dsimp only
    by_cases hm : ak.contains d.key = true
    · rw [if_pos hm,
        if_pos ((contains_iff_mem_nat _ _).mpr
          (List.mem_cons_of_mem _ ((contains_iff_mem_nat _ _).mp hm)))]
    · rw [if_neg hm, if_neg (fun hc => ?_)]
      rcases List.mem_cons.mp ((contains_iff_mem_nat _ _).mp hc) with he | he
      · exact absurd (by simpa using he) hdk
      · exact hm ((contains_iff_mem_nat _ _).mpr he)

/-- The first loop of `rollback_to` closes exactly every record whose key
is a selected key holding a currently-valid record (all of its records,
not only the currently-valid one), provided the selected keys are
distinct. -/
theorem vCloseExpired_eq_map (now : Nat) (sel : List VDoc) (l : VColl)
    (hnd : (sel.map VDoc.key).Nodup) :
    vCloseExpired now sel l =
      l.map (fun d =>
        if (activeKeys sel l).contains d.key
        then { d with validUntilUtc := some now } else d) := by
  induction sel generalizing l with
  | nil => simp [vCloseExpired, activeKeys, List.contains]
  | cons e rest ih =>
    rw [List.map_cons, List.nodup_cons] at hnd
    unfold vCloseExpired
    by_cases hfo : (vFindOpen l e.key).isSome
    · rw [if_pos hfo, ih _ hnd.2]
      have hak : activeKeys rest (vCloseAllKey now e.key l) = activeKeys rest l := by
        unfold activeKeys
        rw [List.filter_congr (fun e' he' => by
          have hne : e'.key ≠ e.key := fun he =>
            hnd.1 (he ▸ List.mem_map_of_mem _ he')
          rw [vFindOpen_vCloseAllKey_ne now e.key e'.key l hne])]
      have hacons : activeKeys (e :: rest) l = e.key :: activeKeys rest l := by
        unfold activeKeys
        rw [show (e :: rest).filter (fun e' => (vFindOpen l e'.key).isSome) =
            e :: rest.filter (fun e' => (vFindOpen l e'.key).isSome) from
          List.filter_cons_of_pos hfo, List.map_cons]
      rw [hak, hacons]
      unfold vCloseAllKey
      rw [List.map_map]
      refine List.map_congr_left (fun d _ => ?_)
      have hna : (activeKeys rest l).contains e.key = false := by
        rw [Bool.eq_false_iff]
        intro hc
        exact hnd.1 (activeKeys_subset_keys rest l e.key
          ((contains_iff_mem_nat _ _).mp hc))
      exact closeIf_comp now (activeKeys rest l) e.key d hna
    · rw [if_neg hfo, ih _ hnd.2]
      have hacons : activeKeys (e :: rest) l = activeKeys rest l := by
        unfold activeKeys
        rw [show (e :: rest).filter (fun e' => (vFindOpen l e'.key).isSome) =
            rest.filter (fun e' => (vFindOpen l e'.key).isSome) from
          List.filter_cons_of_neg (by simpa using hfo)]
      rw [hacons]

/-- Ordered `insert_many` succeeds and appends when the inserted documents
are currently-valid records with pairwise distinct keys, none of which has
a currently-valid record in the collection. -/
theorem vInsertDocs_ok (documents : List VDoc) (l : VColl)
    (hopen : ∀ d ∈ documents, d.validUntilUtc = none)
    (hnd : (documents.map VDoc.key).Nodup)
    (hfresh : ∀ d ∈ documents, ∀ e ∈ l, e.key = d.key → e.validUntilUtc ≠ none) :
    vInsertDocs documents l = (true, l ++ documents) := by
  induction documents generalizing l with
  | nil =>
    show (true, l) = (true, l ++ [])
    rw [List.append_nil]
  | cons d ds ih =>
    rw [List.map_cons, List.nodup_cons] at hnd
    have hnc : vConflict l d = false := by
      rw [Bool.eq_false_iff]
      intro hc
      unfold vConflict at hc
      rcases List.any_eq_true.mp hc with ⟨e, he, hee⟩
      rw [Bool.and_eq_true] at hee
      have hk : e.key = d.key := by simpa using hee.1
      have hu : e.validUntilUtc = d.validUntilUtc := by simpa using hee.2
      exact hfresh d (List.mem_cons_self _ _) e he hk
        (hu.trans (hopen d (List.mem_cons_self _ _)))
    have hfr : ∀ x ∈ ds, ∀ e ∈ l ++ [d], e.key = x.key →
        e.validUntilUtc ≠ none := by
      intro x hx e he hk
      rcases List.mem_append.mp he with he | he
      · exact hfresh x (List.mem_cons_of_mem _ hx) e he hk
      · rw [List.mem_singleton] at he
        subst he
        intro _
        refine hnd.1 ?_
        rw [hk]
        exact List.mem_map_of_mem _ hx
    unfold vInsertDocs
    rw [if_neg (by simp [hnc]),
      ih (l ++ [d]) (fun x hx => hopen x (List.mem_cons_of_mem _ hx)) hnd.2 hfr,
      List.append_assoc]
    rfl

/-- Claim C2, amended: on a state with at most one currently-valid record
per key, when the selected records (exactly those matching the filters
with `valid_since_utc <= t < valid_until_utc`; null validity-ends are
excluded) have pairwise distinct keys, `rollback_to` closes EVERY record
of each selected key that has a currently-valid record (not only the
currently-valid one — historical validity-ends are overwritten with
`now`), touches no record of a selected key without a currently-valid
record, reinserts each selected record with validity-start `now` and a
null validity-end, and returns the number of selected records.  (The claim
as stated — only the currently-valid record is closed — fails: see the
counterexample.) -/
theorem c2_rollback_to_amended (now t : Nat) (kf : Option Nat) (l : VColl)
    (hg : vGood l)
    (hnd : ((vSelect t kf l).map VDoc.key).Nodup) :
    vRollbackTo now t kf l =
      (.ok (vSelect t kf l).length,
        (l.map fun d =>
          if (activeKeys (vSelect t kf l) l).contains d.key
          then { d with validUntilUtc := some now } else d) ++
        (vSelect t kf l).map
          (fun e => { e with validSinceUtc := now, validUntilUtc := none })) := by
  unfold vRollbackTo
  dsimp only
  rw [vCloseExpired_eq_map now _ l hnd]
  by_cases hsel : (vSelect t kf l).isEmpty
  · have hearly : vSelect t kf l = [] := (listIsEmpty_iff _).mp hsel
    rw [if_pos hsel, hearly, List.map_nil, List.append_nil]
    rfl
  · rw [if_neg hsel]
    have hopen : ∀ s ∈ (vSelect t kf l).map
        (fun e => { e with validSinceUtc := now, validUntilUtc := none }),
        s.validUntilUtc = none := by
      intro s hs
      rcases List.mem_map.mp hs with ⟨e, _, rfl⟩
      rfl
    have hnd2 : (((vSelect t kf l).map
        (fun e => { e with validSinceUtc := now, validUntilUtc := none })).map
          VDoc.key).Nodup := by
      rw [List.map_map]
      exact hnd
    have hfresh : ∀ s ∈ (vSelect t kf l).map
        (fun e => { e with validSinceUtc := now, validUntilUtc := none }),
        ∀ e ∈ l.map (fun d =>
          if (activeKeys (vSelect t kf l) l).contains d.key
          then { d with validUntilUtc := some now } else d),
        e.key = s.key → e.validUntilUtc ≠ none := by
      intro s hs e1 he1 hk hnone
      rcases List.mem_map.mp hs with ⟨e0, he0, rfl⟩
      rcases List.mem_map.mp he1 with ⟨d, hd, rfl⟩
      by_cases hcd : (activeKeys (vSelect t kf l) l).contains d.key = true
      · rw [if_pos hcd] at hnone
        simp at hnone
      · rw [if_neg hcd] at hnone hk
        have hkey : d.key = e0.key := hk
        have hsome : (vFindOpen l e0.key).isSome = true := by
          unfold vFindOpen
          exact List.find?_isSome.mpr ⟨d, hd, by simp [hkey, hnone]⟩
        exact hcd ((contains_iff_mem_nat _ _).mpr
          ((mem_activeKeys _ _ _).mpr ⟨e0, he0, hkey.symm, hsome⟩))
    rw [vInsertDocs_ok _ _ hopen hnd2 hfresh]

/-- Witness for the amended C2 at a concrete two-record state. -/
theorem c2_rollback_to_amended_witness :
    vRollbackTo 10 3 none [⟨1, 10, 0, some 5⟩, ⟨1, 20, 5, none⟩] =
      (.ok (vSelect 3 none [⟨1, 10, 0, some 5⟩, ⟨1, 20, 5, none⟩]).length,
        ([⟨1, 10, 0, some 5⟩, ⟨1, 20, 5, none⟩].map fun d =>
          if (activeKeys (vSelect 3 none [⟨1, 10, 0, some 5⟩, ⟨1, 20, 5, none⟩])
              [⟨1, 10, 0, some 5⟩, ⟨1, 20, 5, none⟩]).contains d.key
          then { d with validUntilUtc := some 10 } else d) ++
        (vSelect 3 none [⟨1, 10, 0, some 5⟩, ⟨1, 20, 5, none⟩]).map
          (fun e => { e with validSinceUtc := 10, validUntilUtc := none })) :=
  c2_rollback_to_amended 10 3 none [⟨1, 10, 0, some 5⟩, ⟨1, 20, 5, none⟩]
    (by decide) (by decide)

/-- `rollback_to` as the specification's words describe it: for each
selected record's primary key, close ONLY the currently-valid record
(leaving other historical records untouched), then reinsert each selected
record as the new currently-valid revision and return the count.  Used to
compare the implementation against the claim. -/
def vRollbackSpec (now t : Nat) (kf : Option Nat) (l : VColl) :
    Except Unit Nat × VColl :=
  let sel := vSelect t kf l
  let l1 := l.map fun d =>
    if d.validUntilUtc == none && (sel.map VDoc.key).contains d.key
    then { d with validUntilUtc := some now } else d
  (.ok sel.length,
    l1 ++ sel.map fun e => { e with validSinceUtc := now, validUntilUtc := none })

/-- Counterexample to C2 as stated: on the two-revision history of key 1
(`[0, 5)` then `[5, null)`), `rollback_to` at validity 3 also rewrites the
validity-end of the historical record `[0, 5)` to `now` (= 10), whereas
the claim says only the currently-valid record is closed. -/
theorem c2_counterexample :
    vRollbackTo 10 3 none [⟨1, 10, 0, some 5⟩, ⟨1, 20, 5, none⟩] ≠
      vRollbackSpec 10 3 none [⟨1, 10, 0, some 5⟩, ⟨1, 20, 5, none⟩] ∧
    (vRollbackTo 10 3 none [⟨1, 10, 0, some 5⟩, ⟨1, 20, 5, none⟩]).2 =
      [⟨1, 10, 0, some 10⟩, ⟨1, 20, 5, some 10⟩, ⟨1, 10, 10, none⟩] ∧
    (vRollbackSpec 10 3 none [⟨1, 10, 0, some 5⟩, ⟨1, 20, 5, none⟩]).2 =
      [⟨1, 10, 0, some 5⟩, ⟨1, 20, 5, some 10⟩, ⟨1, 10, 10, none⟩] := by
  refine ⟨by decide, by decide, by decide⟩
